import Mathlib

/-!
# Verification of the ledger double-entry bookkeeping core

A shallow embedding, in Lean 4, of the posting / validation / reversal /
balance-computation engine of the `tinoosan/ledger` repository, together
with proofs and refutations of the specification claims about it.

Conventions of the embedding:
* `uuid.UUID` is modelled as `Nat`, with `uuid.Nil = 0`; `uuid.New()` is
  modelled by a fresh-id counter threaded through the store state, and the
  lexicographic order on `uuid.String()` values used by the Go sort
  comparators is modelled by the order on `Nat`.
* `time.Time` is modelled as `Int` (nanoseconds since epoch);
  `t.After(u)` is `u < t` and `t.Equal(u)` is `t = u`.  The
  `RFC3339Nano` format / parse round trip used by pagination cursors is
  the identity in this model.
* `money.Amount` is modelled as a currency code and an `Int` of minor
  units; `Add`/`Sub` succeed exactly when the currencies agree, which is
  the only failure mode the service code exercises.
* Go `int64` accumulator arithmetic (`sumDebits += units`) wraps on
  overflow; this is modelled explicitly with `wrap64`.
* Go maps iterated by the services (`Lines.ByID`) are modelled as lists;
  iteration order is the list order.
-/

namespace Ledger

abbrev UUID := Nat
abbrev Time := Int

def uuidNil : UUID := 0

/-- `money.Amount`: an ISO currency code and an integer amount in minor
units (`govalues/money`, as used through `NewAmountFromMinorUnits` /
`MinorUnits`). -/
structure Amount where
  currency : String
  minor : Int
deriving DecidableEq, Repr

/-- `Amount.Add`: succeeds exactly when the currencies agree. -/
def Amount.add (a b : Amount) : Option Amount :=
  if a.currency = b.currency then some ⟨a.currency, a.minor + b.minor⟩ else none

/-- `Amount.Sub`: succeeds exactly when the currencies agree. -/
def Amount.sub (a b : Amount) : Option Amount :=
  if a.currency = b.currency then some ⟨a.currency, a.minor - b.minor⟩ else none

/-- `ledger.Account` (the revision used by the account service in
`src/unnamed/part_001`, whose descriptive path component is `Group`). -/
structure Account where
  id : UUID
  userID : UUID
  name : String
  currency : String
  type : String
  group : String
  vendor : String
  system : Bool
  active : Bool
deriving DecidableEq, Repr

/-- `ledger.JournalLine`. -/
structure JournalLine where
  id : UUID
  entryID : UUID
  accountID : UUID
  side : String
  amount : Amount
deriving DecidableEq, Repr

/-- `ledger.JournalEntry`; `lines` models the `JournalLines.ByID` map as a
list in iteration order. -/
structure JournalEntry where
  id : UUID
  userID : UUID
  date : Time
  currency : String
  memo : String
  category : String
  isReversed : Bool
  lines : List JournalLine
deriving DecidableEq, Repr

/-- The in-memory store (`internal/storage/memory`, `src/unnamed/part_016`):
accounts and entries keyed by id, plus a fresh-id supply modelling
`uuid.New()`. -/
structure Store where
  nextID : Nat
  accounts : List Account
  entries : List JournalEntry
deriving DecidableEq, Repr

/-- Lookup in the store's `accountsByID` map. -/
def lookupAccount (accs : List Account) (id : UUID) : Option Account :=
  accs.find? (fun a => a.id == id)

/-- `Store.AccountsByIDs` (memory store): resolve each id once, keeping an
account only when it exists and belongs to the user. -/
def accountsByIDsGo (accs : List Account) (userID : UUID) (seen : List UUID) :
    List UUID → List (UUID × Account)
  | [] => []
  | id :: rest =>
    if id ∈ seen then accountsByIDsGo accs userID seen rest
    else
      match lookupAccount accs id with
      | some a =>
          if a.userID == userID then (id, a) :: accountsByIDsGo accs userID (id :: seen) rest
          else accountsByIDsGo accs userID (id :: seen) rest
      | none => accountsByIDsGo accs userID (id :: seen) rest

def accountsByIDs (accs : List Account) (userID : UUID) (ids : List UUID) :
    List (UUID × Account) :=
  accountsByIDsGo accs userID [] ids

/-- Lookup in the `accMap` returned by `AccountsByIDs`. -/
def accMapFind (m : List (UUID × Account)) (id : UUID) : Option Account :=
  (m.find? (fun p => p.1 == id)).map (·.2)

/-- `unique` from the journal service: first occurrence of each id. -/
def uniqueGo (seen : List UUID) : List UUID → List UUID
  | [] => []
  | id :: rest =>
    if id ∈ seen then uniqueGo seen rest else id :: uniqueGo (id :: seen) rest

def unique (ids : List UUID) : List UUID := uniqueGo [] ids

/-- Two's-complement wrap-around of Go `int64` addition results. -/
def wrap64 (x : Int) : Int := (x + 2 ^ 63) % 2 ^ 64 - 2 ^ 63

/-! ## Entry validation (`ValidateEntryInput`, `internal/service/journal/service.go`) -/

/-- The distinct error values `ValidateEntryInput` can return, in source
order of the checks that produce them. -/
inductive ValErr
  | userRequired
  | currencyRequired
  | tooFewLines
  | lineAccountRequired (i : Nat)
  | lineAmountNotPositive (i : Nat)
  | lineSideInvalid (i : Nat)
  | unbalanced
  | unknownAccounts
  | lineAccountNotFound (i : Nat)
  | lineAccountNotOwned (i : Nat)
  | lineCurrencyMismatch (i : Nat)
deriving DecidableEq, Repr

/-- `journal.LineInput`. -/
structure LineInput where
  accountID : UUID
  side : String
  amountMinor : Int
deriving DecidableEq, Repr

/-- `journal.EntryInput`. -/
structure EntryInput where
  userID : UUID
  date : Time
  currency : String
  memo : String
  category : String
  lines : List LineInput
deriving DecidableEq, Repr

/-- First loop of `ValidateEntryInput`: per-line checks and the two
`int64` sum accumulators (wrapping on overflow like Go). -/
def sumLinesGo (i : Nat) (d c : Int) : List LineInput → Except ValErr (Int × Int)
  | [] => .ok (d, c)
  | ln :: rest =>
    if ln.accountID = uuidNil then .error (.lineAccountRequired i)
    else if ln.amountMinor ≤ 0 then .error (.lineAmountNotPositive i)
    else if ln.side = "debit" then sumLinesGo (i + 1) (wrap64 (d + ln.amountMinor)) c rest
    else if ln.side = "credit" then sumLinesGo (i + 1) d (wrap64 (c + ln.amountMinor)) rest
    else .error (.lineSideInvalid i)

/-- Second loop of `ValidateEntryInput`: each line's resolved account must
exist, belong to the user and carry the entry's currency. -/
def checkLineAccountsGo (accMap : List (UUID × Account)) (userID : UUID)
    (currency : String) (i : Nat) : List LineInput → Except ValErr Unit
  | [] => .ok ()
  | ln :: rest =>
    match accMapFind accMap ln.accountID with
    | none => .error (.lineAccountNotFound i)
    | some acc =>
      if acc.userID ≠ userID then .error (.lineAccountNotOwned i)
      else if acc.currency ≠ currency then .error (.lineCurrencyMismatch i)
      else checkLineAccountsGo accMap userID currency (i + 1) rest

/-- `ValidateEntryInput` from `internal/service/journal/service.go`,
composed with the memory store's `AccountsByIDs`. -/
def validateEntryInput (accs : List Account) (e : EntryInput) : Except ValErr Unit :=
  if e.userID = uuidNil then .error .userRequired
  else if e.currency = "" then .error .currencyRequired
  else if e.lines.length < 2 then .error .tooFewLines
  else
    match sumLinesGo 0 0 0 e.lines with
    | .error err => .error err
    | .ok (d, c) =>
      if d ≠ c then .error .unbalanced
      else
        let ids := e.lines.map (·.accountID)
        let accMap := accountsByIDs accs e.userID ids
        if accMap.length ≠ (unique ids).length then .error .unknownAccounts
        else checkLineAccountsGo accMap e.userID e.currency 0 e.lines

/-! ### Specification-side formulation of the validation checks (claim C1)

`validateEntrySpec` restates the checks in the order the specification
lists them, with per-line failures found by an explicit first-failure
scan and the account conditions phrased against the store directly. -/

/-- First per-line basic failure (account id present, amount positive,
side is debit or credit), in line order. -/
def lineCheckErr? (i : Nat) : List LineInput → Option ValErr
  | [] => none
  | ln :: rest =>
    if ln.accountID = uuidNil then some (.lineAccountRequired i)
    else if ln.amountMinor ≤ 0 then some (.lineAmountNotPositive i)
    else if ln.side = "debit" ∨ ln.side = "credit" then lineCheckErr? (i + 1) rest
    else some (.lineSideInvalid i)

/-- Wrapping 64-bit sum of a list of minor-unit amounts, started at `d`. -/
def wrapSumFrom (d : Int) (xs : List Int) : Int :=
  xs.foldl (fun s x => wrap64 (s + x)) d

def debitMinors (lines : List LineInput) : List Int :=
  (lines.filter (fun l => l.side == "debit")).map (·.amountMinor)

def creditMinors (lines : List LineInput) : List Int :=
  (lines.filter (fun l => l.side == "credit")).map (·.amountMinor)

/-- The wrapping 64-bit total of the debit lines. -/
def debitTotal (lines : List LineInput) : Int := wrapSumFrom 0 (debitMinors lines)

/-- The wrapping 64-bit total of the credit lines. -/
def creditTotal (lines : List LineInput) : Int := wrapSumFrom 0 (creditMinors lines)

/-- Does `id` resolve, for this user, to an account the user owns? -/
def resolvesOwnedB (accs : List Account) (u : UUID) (id : UUID) : Bool :=
  match lookupAccount accs id with
  | some a => a.userID == u
  | none => false

/-- First line whose resolved account's currency differs from the
entry's, in line order (lines whose account does not resolve are passed
over; the caller has already ruled that out). -/
def mismatchErr? (accs : List Account) (curr : String) (i : Nat) :
    List LineInput → Option ValErr
  | [] => none
  | ln :: rest =>
    match lookupAccount accs ln.accountID with
    | none => mismatchErr? accs curr (i + 1) rest
    | some a =>
      if a.currency ≠ curr then some (.lineCurrencyMismatch i)
      else mismatchErr? accs curr (i + 1) rest

/-- The validation contract as the specification words it: the same
checks, in the specification's order, each short-circuiting. -/
def validateEntrySpec (accs : List Account) (e : EntryInput) : Except ValErr Unit :=
  if e.userID = uuidNil then .error .userRequired
  else if e.currency = "" then .error .currencyRequired
  else if e.lines.length < 2 then .error .tooFewLines
  else
    match lineCheckErr? 0 e.lines with
    | some err => .error err
    | none =>
      if debitTotal e.lines ≠ creditTotal e.lines then .error .unbalanced
      else if ¬ e.lines.all (fun l => resolvesOwnedB accs e.userID l.accountID) then
        .error .unknownAccounts
      else
        match mismatchErr? accs e.currency 0 e.lines with
        | some err => .error err
        | none => .ok ()

/-! ### Lemmas about the validation loops -/

theorem debitMinors_cons_debit {ln : LineInput} (rest : List LineInput)
    (h : ln.side = "debit") :
    debitMinors (ln :: rest) = ln.amountMinor :: debitMinors rest := by
  simp [debitMinors, List.filter_cons, h]

theorem debitMinors_cons_ne {ln : LineInput} (rest : List LineInput)
    (h : ln.side ≠ "debit") :
    debitMinors (ln :: rest) = debitMinors rest := by
  simp [debitMinors, List.filter_cons, h]

theorem creditMinors_cons_credit {ln : LineInput} (rest : List LineInput)
    (h : ln.side = "credit") :
    creditMinors (ln :: rest) = ln.amountMinor :: creditMinors rest := by
  simp [creditMinors, List.filter_cons, h]

theorem creditMinors_cons_ne {ln : LineInput} (rest : List LineInput)
    (h : ln.side ≠ "credit") :
    creditMinors (ln :: rest) = creditMinors rest := by
  simp [creditMinors, List.filter_cons, h]

theorem sumLinesGo_eq :
    ∀ (lines : List LineInput) (i : Nat) (d c : Int),
      sumLinesGo i d c lines =
        match lineCheckErr? i lines with
        | some err => .error err
        | none => .ok (wrapSumFrom d (debitMinors lines), wrapSumFrom c (creditMinors lines)) := by
  intro lines
  induction lines with
  | nil => intro i d c; rfl
  | cons ln rest ih =>
    intro i d c
    by_cases hacct : ln.accountID = uuidNil
    · simp [sumLinesGo, lineCheckErr?, hacct]
    · by_cases hamt : ln.amountMinor ≤ 0
      · simp [sumLinesGo, lineCheckErr?, hacct, hamt]
      · by_cases hdeb : ln.side = "debit"
        · have h1 : sumLinesGo i d c (ln :: rest) =
              sumLinesGo (i + 1) (wrap64 (d + ln.amountMinor)) c rest := by
            simp [sumLinesGo, hacct, hamt, hdeb]
          have h2 : lineCheckErr? i (ln :: rest) = lineCheckErr? (i + 1) rest := by
            simp [lineCheckErr?, hacct, hamt, hdeb]
          have hcredne : ln.side ≠ "credit" := by rw [hdeb]; decide
          rw [h1, h2, ih, debitMinors_cons_debit rest hdeb,
            creditMinors_cons_ne rest hcredne]
          cases lineCheckErr? (i + 1) rest <;> simp [wrapSumFrom]
        · by_cases hcred : ln.side = "credit"
          · have h1 : sumLinesGo i d c (ln :: rest) =
                sumLinesGo (i + 1) d (wrap64 (c + ln.amountMinor)) rest := by
              simp [sumLinesGo, hacct, hamt, hdeb, hcred]
            have h2 : lineCheckErr? i (ln :: rest) = lineCheckErr? (i + 1) rest := by
              simp [lineCheckErr?, hacct, hamt, hcred]
            rw [h1, h2, ih, debitMinors_cons_ne rest hdeb,
              creditMinors_cons_credit rest hcred]
            cases lineCheckErr? (i + 1) rest <;> simp [wrapSumFrom]
          · have h1 : sumLinesGo i d c (ln :: rest) = .error (.lineSideInvalid i) := by
              simp [sumLinesGo, hacct, hamt, hdeb, hcred]
            have h2 : lineCheckErr? i (ln :: rest) = some (.lineSideInvalid i) := by
              simp [lineCheckErr?, hacct, hamt, hdeb, hcred]
            rw [h1, h2]

theorem lineCheckErr?_eq_none :
    ∀ (lines : List LineInput) (i : Nat),
      lineCheckErr? i lines = none ↔
        ∀ ln ∈ lines, ln.accountID ≠ uuidNil ∧ 0 < ln.amountMinor ∧
          (ln.side = "debit" ∨ ln.side = "credit") := by
  intro lines
  induction lines with
  | nil => intro i; simp [lineCheckErr?]
  | cons ln rest ih =>
    intro i
    by_cases hacct : ln.accountID = uuidNil
    · simp [lineCheckErr?, hacct]
    · by_cases hamt : ln.amountMinor ≤ 0
      · simp only [lineCheckErr?, if_neg hacct, if_pos hamt]
        constructor
        · intro h; cases h
        · intro h
          exact absurd (h ln (List.mem_cons_self ln rest)).2.1 (by omega)
      · by_cases hside : ln.side = "debit" ∨ ln.side = "credit"
        · simp only [lineCheckErr?, if_neg hacct, if_neg hamt, if_pos hside]
          rw [ih (i + 1)]
          constructor
          · intro h ln' hln'
            rcases List.mem_cons.mp hln' with h' | h'
            · subst h'; exact ⟨hacct, by omega, hside⟩
            · exact h ln' h'
          · intro h ln' hln'
            exact h ln' (List.mem_cons_of_mem ln hln')
        · simp only [lineCheckErr?, if_neg hacct, if_neg hamt, if_neg hside]
          constructor
          · intro h; cases h
          · intro h
            exact absurd (h ln (List.mem_cons_self ln rest)).2.2 hside

theorem accountsByIDsGo_length_le (accs : List Account) (u : UUID) :
    ∀ (ids : List UUID) (seen : List UUID),
      (accountsByIDsGo accs u seen ids).length ≤ (uniqueGo seen ids).length := by
  intro ids
  induction ids with
  | nil => intro seen; simp [accountsByIDsGo, uniqueGo]
  | cons id rest ih =>
    intro seen
    by_cases hseen : id ∈ seen
    · simp only [accountsByIDsGo, uniqueGo, if_pos hseen]
      exact ih seen
    · simp only [accountsByIDsGo, uniqueGo, if_neg hseen]
      cases hl : lookupAccount accs id with
      | none => simpa using Nat.le_succ_of_le (ih (id :: seen))
      | some a =>
        by_cases how : a.userID == u
        · simp only [if_pos how, List.length_cons]
          exact Nat.succ_le_succ (ih (id :: seen))
        · simp only [if_neg how]
          exact Nat.le_succ_of_le (ih (id :: seen))

theorem accountsByIDsGo_length_eq (accs : List Account) (u : UUID) :
    ∀ (ids : List UUID) (seen : List UUID),
      ((accountsByIDsGo accs u seen ids).length = (uniqueGo seen ids).length ↔
        ∀ id ∈ ids, id ∉ seen → resolvesOwnedB accs u id = true) := by
  intro ids
  induction ids with
  | nil => intro seen; simp [accountsByIDsGo, uniqueGo]
  | cons id rest ih =>
    intro seen
    by_cases hseen : id ∈ seen
    · simp only [accountsByIDsGo, uniqueGo, if_pos hseen]
      rw [ih seen]
      constructor
      · intro h x hx hxs
        rcases List.mem_cons.mp hx with h' | h'
        · exact absurd (h' ▸ hseen) hxs
        · exact h x h' hxs
      · intro h x hx hxs
        exact h x (List.mem_cons_of_mem id hx) hxs
    · by_cases hro : resolvesOwnedB accs u id = true
      · obtain ⟨a, hl, how⟩ : ∃ a, lookupAccount accs id = some a ∧ (a.userID == u) = true := by
          unfold resolvesOwnedB at hro
          cases h : lookupAccount accs id with
          | none => rw [h] at hro; cases hro
          | some a => rw [h] at hro; exact ⟨a, rfl, hro⟩
        have hstep : accountsByIDsGo accs u seen (id :: rest) =
            (id, a) :: accountsByIDsGo accs u (id :: seen) rest := by
          simp only [accountsByIDsGo, if_neg hseen, hl, if_pos how]
        rw [hstep]
        simp only [uniqueGo, if_neg hseen, List.length_cons, Nat.succ_inj]
        rw [ih (id :: seen)]
        constructor
        · intro h x hx hxs
          rcases List.mem_cons.mp hx with h' | h'
          · exact h' ▸ hro
          · by_cases hxid : x = id
            · exact hxid ▸ hro
            · refine h x h' ?_
              intro hmem
              rcases List.mem_cons.mp hmem with h'' | h''
              · exact hxid h''
              · exact hxs h''
        · intro h x hx hxs
          have hxseen : x ∉ seen := fun hm => hxs (List.mem_cons_of_mem id hm)
          exact h x (List.mem_cons_of_mem id hx) hxseen
      · have hstep : accountsByIDsGo accs u seen (id :: rest) =
            accountsByIDsGo accs u (id :: seen) rest := by
          unfold resolvesOwnedB at hro
          cases h : lookupAccount accs id with
          | none => simp only [accountsByIDsGo, if_neg hseen, h]
          | some a =>
            rw [h] at hro
            have hro' : ¬(a.userID == u) = true := by simpa using hro
            simp only [accountsByIDsGo, if_neg hseen, h, if_neg hro']
        rw [hstep]
        simp only [uniqueGo, if_neg hseen, List.length_cons]
        constructor
        · intro h
          have hle := accountsByIDsGo_length_le accs u rest (id :: seen)
          omega
        · intro h
          exact absurd (h id (List.mem_cons_self id rest) hseen) hro

theorem accMapFind_go (accs : List Account) (u : UUID) :
    ∀ (ids : List UUID) (seen : List UUID) (id : UUID),
      id ∈ ids → id ∉ seen → resolvesOwnedB accs u id = true →
      accMapFind (accountsByIDsGo accs u seen ids) id = lookupAccount accs id := by
  intro ids
  induction ids with
  | nil => intro seen id h; cases h
  | cons id' rest ih =>
    intro seen id hmem hns hro
    by_cases hseen : id' ∈ seen
    · have : id ∈ rest := by
        rcases List.mem_cons.mp hmem with h | h
        · exact absurd (h ▸ hseen) hns
        · exact h
      simp only [accountsByIDsGo, if_pos hseen]
      exact ih seen id this hns hro
    · cases hl : lookupAccount accs id' with
      | none =>
        have hne : id ≠ id' := by
          intro h
          rw [h] at hro
          unfold resolvesOwnedB at hro
          rw [hl] at hro
          cases hro
        simp only [accountsByIDsGo, if_neg hseen, hl]
        exact ih (id' :: seen) id (by
            rcases List.mem_cons.mp hmem with h | h
            · exact absurd h hne
            · exact h)
          (by simp [hne, hns]) hro
      | some a =>
        by_cases how : a.userID == u
        · simp only [accountsByIDsGo, if_neg hseen, hl, if_pos how]
          by_cases hid : id = id'
          · subst hid
            simp [accMapFind, List.find?, hl]
          · have h1 : accMapFind ((id', a) :: accountsByIDsGo accs u (id' :: seen) rest) id =
                accMapFind (accountsByIDsGo accs u (id' :: seen) rest) id := by
              simp [accMapFind, List.find?, Ne.symm hid, (by simpa using Ne.symm hid : (id' == id) = false)]
            rw [h1]
            exact ih (id' :: seen) id (by
                rcases List.mem_cons.mp hmem with h | h
                · exact absurd h hid
                · exact h)
              (by simp [hid, hns]) hro
        · have hne : id ≠ id' := by
            intro h
            rw [h] at hro
            unfold resolvesOwnedB at hro
            rw [hl] at hro
            exact absurd hro how
          simp only [accountsByIDsGo, if_neg hseen, hl, if_neg how]
          exact ih (id' :: seen) id (by
              rcases List.mem_cons.mp hmem with h | h
              · exact absurd h hne
              · exact h)
            (by simp [hne, hns]) hro

theorem checkLineAccountsGo_eq (accMap : List (UUID × Account)) (accs : List Account)
    (u : UUID) (curr : String) :
    ∀ (lines : List LineInput) (i : Nat),
      (∀ ln ∈ lines, accMapFind accMap ln.accountID = lookupAccount accs ln.accountID ∧
        ∃ a, lookupAccount accs ln.accountID = some a ∧ a.userID = u) →
      checkLineAccountsGo accMap u curr i lines =
        match mismatchErr? accs curr i lines with
        | some err => .error err
        | none => .ok () := by
  intro lines
  induction lines with
  | nil => intro i _; rfl
  | cons ln rest ih =>
    intro i hyp
    obtain ⟨hfind, a, hl, howner⟩ := hyp ln (List.mem_cons_self ln rest)
    have hrest : ∀ ln' ∈ rest, accMapFind accMap ln'.accountID = lookupAccount accs ln'.accountID ∧
        ∃ a, lookupAccount accs ln'.accountID = some a ∧ a.userID = u :=
      fun ln' h => hyp ln' (List.mem_cons_of_mem ln h)
    have hfind' : accMapFind accMap ln.accountID = some a := hfind.trans hl
    have hown' : ¬(a.userID ≠ u) := by simp [howner]
    by_cases hcurr : a.currency ≠ curr
    · simp only [checkLineAccountsGo, mismatchErr?, hfind', hl, if_neg hown', if_pos hcurr]
    · simp only [checkLineAccountsGo, mismatchErr?, hfind', hl, if_neg hown', if_neg hcurr]
      exact ih (i + 1) hrest

theorem mismatchErr?_eq_none (accs : List Account) (curr : String) :
    ∀ (lines : List LineInput) (i : Nat),
      mismatchErr? accs curr i lines = none ↔
        ∀ ln ∈ lines, ∀ a, lookupAccount accs ln.accountID = some a → a.currency = curr := by
  intro lines
  induction lines with
  | nil => intro i; simp [mismatchErr?]
  | cons ln rest ih =>
    intro i
    cases hl : lookupAccount accs ln.accountID with
    | none =>
      simp only [mismatchErr?, hl]
      rw [ih (i + 1)]
      constructor
      · intro h ln' hln' a ha
        rcases List.mem_cons.mp hln' with h' | h'
        · rw [h'] at ha; rw [ha] at hl; cases hl
        · exact h ln' h' a ha
      · intro h ln' hln' a ha
        exact h ln' (List.mem_cons_of_mem ln hln') a ha
    | some a =>
      by_cases hcurr : a.currency ≠ curr
      · simp only [mismatchErr?, hl, if_pos hcurr]
        constructor
        · intro h; cases h
        · intro h
          exact absurd (h ln (List.mem_cons_self ln rest) a hl) hcurr
      · simp only [mismatchErr?, hl, if_neg hcurr]
        rw [ih (i + 1)]
        push_neg at hcurr
        constructor
        · intro h ln' hln' a' ha'
          rcases List.mem_cons.mp hln' with h' | h'
          · rw [h'] at ha'; rw [ha'] at hl
            injection hl with h''
            rw [h'']; exact hcurr
          · exact h ln' h' a' ha'
        · intro h ln' hln' a' ha'
          exact h ln' (List.mem_cons_of_mem ln hln') a' ha'

theorem validateEntryInput_eq_spec (accs : List Account) (e : EntryInput) :
    validateEntryInput accs e = validateEntrySpec accs e := by
  unfold validateEntryInput validateEntrySpec
  by_cases huser : e.userID = uuidNil
  · simp [huser]
  · by_cases hcurr : e.currency = ""
    · simp [huser, hcurr]
    · by_cases hlen : e.lines.length < 2
      · simp [huser, hcurr, hlen]
      · simp only [if_neg huser, if_neg hcurr, if_neg hlen]
        rw [sumLinesGo_eq]
        cases herr : lineCheckErr? 0 e.lines with
        | some err => rfl
        | none =>
          simp only [debitTotal, creditTotal]
          by_cases hbal : wrapSumFrom 0 (debitMinors e.lines) ≠ wrapSumFrom 0 (creditMinors e.lines)
          · rw [if_pos hbal]; rw [if_pos hbal]
          · rw [if_neg hbal]; rw [if_neg hbal]
            have hresolve : ((accountsByIDs accs e.userID (e.lines.map (·.accountID))).length =
                (unique (e.lines.map (·.accountID))).length) ↔
                ∀ id ∈ e.lines.map (·.accountID), resolvesOwnedB accs e.userID id = true := by
              unfold accountsByIDs unique
              rw [accountsByIDsGo_length_eq]
              constructor
              · intro h id hid
                exact h id hid (List.not_mem_nil id)
              · intro h id hid _
                exact h id hid
            by_cases hall : ∀ id ∈ e.lines.map (·.accountID), resolvesOwnedB accs e.userID id = true
            · have hlen2 : ¬((accountsByIDs accs e.userID (e.lines.map (·.accountID))).length ≠
                  (unique (e.lines.map (·.accountID))).length) := by
                simp only [ne_eq, not_not]
                exact hresolve.mpr hall
              have hall2 : ¬(¬(e.lines.all fun l => resolvesOwnedB accs e.userID l.accountID) = true) := by
                simp only [not_not, List.all_eq_true]
                intro l hl
                exact hall l.accountID (List.mem_map_of_mem (·.accountID) hl)
              rw [if_neg hlen2]; rw [if_neg hall2]
              refine checkLineAccountsGo_eq _ accs e.userID e.currency e.lines 0 ?_
              intro ln hln
              have hro : resolvesOwnedB accs e.userID ln.accountID = true :=
                hall ln.accountID (List.mem_map_of_mem (·.accountID) hln)
              obtain ⟨a, hl, how⟩ : ∃ a, lookupAccount accs ln.accountID = some a ∧
                  (a.userID == e.userID) = true := by
                unfold resolvesOwnedB at hro
                cases h : lookupAccount accs ln.accountID with
                | none => rw [h] at hro; cases hro
                | some a => rw [h] at hro; exact ⟨a, rfl, hro⟩
              refine ⟨?_, a, hl, by simpa using how⟩
              exact accMapFind_go accs e.userID (e.lines.map (·.accountID)) [] ln.accountID
                (List.mem_map_of_mem (·.accountID) hln) (List.not_mem_nil _) hro
            · have hlen2 : (accountsByIDs accs e.userID (e.lines.map (·.accountID))).length ≠
                  (unique (e.lines.map (·.accountID))).length := by
                intro h
                exact hall (hresolve.mp h)
              have hall2 : ¬(e.lines.all fun l => resolvesOwnedB accs e.userID l.accountID) = true := by
                simp only [List.all_eq_true]
                intro hforall
                apply hall
                intro id hid
                obtain ⟨l, hl, rfl⟩ := List.mem_map.mp hid
                exact hforall l hl
              rw [if_pos hlen2]; rw [if_pos hall2]

theorem validateEntrySpec_ok_iff (accs : List Account) (e : EntryInput) :
    validateEntrySpec accs e = .ok () ↔
      (e.userID ≠ uuidNil ∧ e.currency ≠ "" ∧ 2 ≤ e.lines.length ∧
        (∀ ln ∈ e.lines, ln.accountID ≠ uuidNil ∧ 0 < ln.amountMinor ∧
          (ln.side = "debit" ∨ ln.side = "credit")) ∧
        debitTotal e.lines = creditTotal e.lines ∧
        (∀ ln ∈ e.lines, ∃ a, lookupAccount accs ln.accountID = some a ∧
          a.userID = e.userID ∧ a.currency = e.currency)) := by
  unfold validateEntrySpec
  by_cases huser : e.userID = uuidNil
  · simp [huser]
  · by_cases hcurr : e.currency = ""
    · simp [huser, hcurr]
    · by_cases hlen : e.lines.length < 2
      · simp only [if_neg huser, if_neg hcurr, if_pos hlen]
        constructor
        · intro h; cases h
        · intro h; omega
      · simp only [if_neg huser, if_neg hcurr, if_neg hlen]
        cases herr : lineCheckErr? 0 e.lines with
        | some err =>
          simp only []
          constructor
          · intro h; cases h
          · rintro ⟨-, -, -, hlines, -⟩
            rw [(lineCheckErr?_eq_none e.lines 0).mpr hlines] at herr
            cases herr
        | none =>
          have hlines := (lineCheckErr?_eq_none e.lines 0).mp herr
          simp only []
          by_cases hbal : debitTotal e.lines ≠ creditTotal e.lines
          · rw [if_pos hbal]
            constructor
            · intro h; cases h
            · rintro ⟨-, -, -, -, hb, -⟩
              exact absurd hb hbal
          · rw [if_neg hbal]
            push_neg at hbal
            by_cases hall : e.lines.all (fun l => resolvesOwnedB accs e.userID l.accountID) = true
            · rw [if_neg (by simp [hall])]
              cases hmm : mismatchErr? accs e.currency 0 e.lines with
              | some err =>
                simp only []
                constructor
                · intro h; cases h
                · rintro ⟨-, -, -, -, -, hres⟩
                  have : mismatchErr? accs e.currency 0 e.lines = none := by
                    rw [mismatchErr?_eq_none]
                    intro ln hln a ha
                    obtain ⟨a', ha', -, hc'⟩ := hres ln hln
                    rw [ha] at ha'
                    injection ha' with h''
                    rw [h'']; exact hc'
                  rw [this] at hmm; cases hmm
              | none =>
                simp only []
                have hmatch := (mismatchErr?_eq_none accs e.currency e.lines 0).mp hmm
                constructor
                · intro _
                  refine ⟨huser, hcurr, by omega, hlines, hbal, ?_⟩
                  intro ln hln
                  have hro : resolvesOwnedB accs e.userID ln.accountID = true := by
                    have := List.all_eq_true.mp hall ln hln
                    exact this
                  obtain ⟨a, hl, how⟩ : ∃ a, lookupAccount accs ln.accountID = some a ∧
                      (a.userID == e.userID) = true := by
                    unfold resolvesOwnedB at hro
                    cases h : lookupAccount accs ln.accountID with
                    | none => rw [h] at hro; cases hro
                    | some a => rw [h] at hro; exact ⟨a, rfl, hro⟩
                  exact ⟨a, hl, by simpa using how, hmatch ln hln a hl⟩
                · intro _; trivial
            · rw [if_pos (by simpa using hall)]
              constructor
              · intro h; cases h
              · rintro ⟨-, -, -, -, -, hres⟩
                exfalso
                apply hall
                rw [List.all_eq_true]
                intro ln hln
                obtain ⟨a, hl, howner, -⟩ := hres ln hln
                unfold resolvesOwnedB
                rw [hl]
                simpa using howner

/-! ## Claim C1 -/

/-- C1 (amended: the two sums are computed, as in the Go source, in
wrapping 64-bit integer arithmetic): `ValidateEntryInput` returns ok iff
the user id is non-nil, the currency non-empty, there are at least two
lines, every line has a non-nil account id, a positive amount and a
debit/credit side, the wrapping 64-bit debit and credit totals agree,
and every referenced account resolves for the user, belongs to the user
and carries the entry currency; moreover the function equals the ordered
first-failure check sequence `validateEntrySpec`, so the first failing
check determines the error.  The embedding is a pure function of the
candidate and the account snapshot (no side effects). -/
theorem validateEntry_ok_iff_ordered (accs : List Account) (e : EntryInput) :
    (validateEntryInput accs e = .ok () ↔
      (e.userID ≠ uuidNil ∧ e.currency ≠ "" ∧ 2 ≤ e.lines.length ∧
        (∀ ln ∈ e.lines, ln.accountID ≠ uuidNil ∧ 0 < ln.amountMinor ∧
          (ln.side = "debit" ∨ ln.side = "credit")) ∧
        debitTotal e.lines = creditTotal e.lines ∧
        (∀ ln ∈ e.lines, ∃ a, lookupAccount accs ln.accountID = some a ∧
          a.userID = e.userID ∧ a.currency = e.currency)))
    ∧ validateEntryInput accs e = validateEntrySpec accs e := by
  refine ⟨?_, validateEntryInput_eq_spec accs e⟩
  rw [validateEntryInput_eq_spec]
  exact validateEntrySpec_ok_iff accs e

/-- The single USD account owned by user 1 used in the C1 refutation. -/
def c1Accounts : List Account :=
  [⟨10, 1, "Cash", "USD", "asset", "bank", "monzo", false, true⟩]

/-- Four debit lines of `2^62` minor units each: the `int64` debit
accumulator wraps to `0`, which equals the credit accumulator. -/
def c1Entry : EntryInput :=
  ⟨1, 0, "USD", "", "general",
    [⟨10, "debit", 2 ^ 62⟩, ⟨10, "debit", 2 ^ 62⟩, ⟨10, "debit", 2 ^ 62⟩, ⟨10, "debit", 2 ^ 62⟩]⟩

/-- C1 counterexample: `ValidateEntryInput` accepts an entry whose true
debit total (`2^64`) differs from its true credit total (`0`), because
the Go `int64` sum accumulators wrap; the claim's "sum of debit amounts
equals the sum of credit amounts" is therefore not equivalent to the
check the code performs. -/
theorem validateEntry_overflow_refutes :
    validateEntryInput c1Accounts c1Entry = .ok () ∧
      ((c1Entry.lines.filter (fun l => l.side == "debit")).map (·.amountMinor)).sum ≠
        ((c1Entry.lines.filter (fun l => l.side == "credit")).map (·.amountMinor)).sum := by
  constructor
  · rfl
  · decide

/-! ## Posting engine (`src/unnamed/part_000`) over the memory store -/

/-- Service-level errors of the journal service, `errs` sentinels plus
propagated validation errors. -/
inductive SvcErr
  | invalid
  | notFound
  | forbidden
  | alreadyReversed
  | validation (err : ValErr)
deriving DecidableEq, Repr

/-- `Store.GetEntry` (memory store): the entry by id, provided it belongs
to the user; `ErrNotFound` (here `none`) otherwise. -/
def getEntry (s : Store) (userID entryID : UUID) : Option JournalEntry :=
  match s.entries.find? (fun e => e.id == entryID) with
  | some e => if e.userID == userID then some e else none
  | none => none

/-- Fresh line ids from `uuid.New()` for a new entry's lines, re-pointing
each line at the entry. -/
def assignLineIDs (entryID : UUID) (start : Nat) : List JournalLine → List JournalLine
  | [] => []
  | ln :: rest => { ln with id := start, entryID := entryID } :: assignLineIDs entryID (start + 1) rest

/-- `CreateEntry` (part_000): assign a fresh entry id and fresh line
ids (never reusing caller-supplied ids) and persist atomically through
the memory writer. -/
def createEntry (s : Store) (e : JournalEntry) : Store × JournalEntry :=
  let entryID := s.nextID
  let lines := assignLineIDs entryID (s.nextID + 1) e.lines
  let e' : JournalEntry :=
    { id := entryID, userID := e.userID, date := e.date, currency := e.currency,
      memo := e.memo, category := e.category, isReversed := false, lines := lines }
  ({ s with nextID := s.nextID + 1 + e.lines.length, entries := s.entries ++ [e'] }, e')

/-- Side flip of `ReverseEntry`: a debit becomes a credit, anything else
becomes a debit. -/
def flipSide (s : String) : String := if s = "debit" then "credit" else "debit"

/-- The flipped, freshly-identified lines of a reversal entry. -/
def reverseLines (rid : UUID) (start : Nat) : List JournalLine → List JournalLine
  | [] => []
  | ln :: rest =>
      { ln with id := start, entryID := rid, side := flipSide ln.side } ::
        reverseLines rid (start + 1) rest

/-- `ReverseEntry` from `src/unnamed/part_000`: load the original (it
must exist and belong to the user), build a new entry with every line's
side flipped and equal amounts, memo `"reversal of <id>: <memo>"`, same
currency and category, and persist it through the writer.  Note this
revision neither consults nor updates `IsReversed`. -/
def reverseEntry (s : Store) (userID entryID : UUID) (date : Time) :
    Store × Except SvcErr JournalEntry :=
  if userID = uuidNil ∨ entryID = uuidNil then (s, .error .invalid)
  else
    match getEntry s userID entryID with
    | none => (s, .error .notFound)
    | some orig =>
      if orig.userID ≠ userID then (s, .error .forbidden)
      else
        let rid := s.nextID
        let lines := reverseLines rid (s.nextID + 1) orig.lines
        let e : JournalEntry :=
          { id := rid, userID := userID, date := date, currency := orig.currency,
            memo := "reversal of " ++ toString orig.id ++ ": " ++ orig.memo,
            category := orig.category, isReversed := false, lines := lines }
        ({ s with nextID := s.nextID + 1 + orig.lines.length, entries := s.entries ++ [e] },
          .ok e)

/-- The `LineInput` view of a domain line (`MinorUnits` of its amount). -/
def toLineInput (ln : JournalLine) : LineInput :=
  ⟨ln.accountID, ln.side, ln.amount.minor⟩

/-- `ValidateEntry` from `src/unnamed/part_000`: the same checks as
`ValidateEntryInput` run over a domain entry's lines (amounts read back
through `MinorUnits`). -/
def validateEntry (accs : List Account) (e : JournalEntry) : Except ValErr Unit :=
  validateEntryInput accs
    ⟨e.userID, e.date, e.currency, e.memo, e.category, e.lines.map toLineInput⟩

/-- `Reclassify` from `src/unnamed/part_000`: load and ownership-check
the original, post the reversing entry, then validate and post the
correcting entry built from `newLines` under the original's currency.
There is no `IsReversed` guard in this revision, and the two steps are
not a transaction. -/
def reclassify (s : Store) (userID entryID : UUID) (date : Time) (memo : String)
    (category : String) (newLines : List JournalLine) : Store × Except SvcErr JournalEntry :=
  if userID = uuidNil ∨ entryID = uuidNil then (s, .error .invalid)
  else
    match getEntry s userID entryID with
    | none => (s, .error .notFound)
    | some orig =>
      if orig.userID ≠ userID then (s, .error .forbidden)
      else
        let step1 := reverseEntry s userID entryID date
        match step1.2 with
        | .error err => (step1.1, .error err)
        | .ok _ =>
          let s1 := step1.1
          let memo' := if memo = "" then "reclassify of " ++ toString orig.id else memo
          let tmpLines := assignLineIDs uuidNil s1.nextID newLines
          let s2 : Store := { s1 with nextID := s1.nextID + newLines.length }
          let e : JournalEntry :=
            { id := uuidNil, userID := userID, date := date, currency := orig.currency,
              memo := memo', category := category, isReversed := false, lines := tmpLines }
          match validateEntry s2.accounts e with
          | .error err => (s2, .error (.validation err))
          | .ok () =>
            let created := createEntry s2 e
            (created.1, .ok created.2)

/-- The signed contribution of one line to the balance of `acct`
(debits add, credits subtract, any other side contributes nothing, as in
the Balance Engine's accumulation switch). -/
def lineNet (acct : UUID) (l : JournalLine) : Int :=
  if l.accountID = acct then
    (if l.side = "debit" then l.amount.minor
     else if l.side = "credit" then -l.amount.minor else 0)
  else 0

/-- The signed contribution of a whole entry to the balance of `acct`. -/
def entryNet (acct : UUID) (e : JournalEntry) : Int := (e.lines.map (lineNet acct)).sum

theorem reverseLines_proj (rid : UUID) :
    ∀ (ls : List JournalLine) (start : Nat),
      (reverseLines rid start ls).map (fun l => (l.accountID, l.amount, l.side)) =
        ls.map (fun l => (l.accountID, l.amount, flipSide l.side)) := by
  intro ls
  induction ls with
  | nil => intro start; rfl
  | cons ln rest ih =>
    intro start
    simp only [reverseLines, List.map_cons, ih (start + 1)]

theorem reverseLines_net (acct rid : UUID) :
    ∀ (ls : List JournalLine) (start : Nat),
      (∀ l ∈ ls, l.side = "debit" ∨ l.side = "credit") →
      ((reverseLines rid start ls).map (lineNet acct)).sum = -((ls.map (lineNet acct)).sum) := by
  intro ls
  induction ls with
  | nil => intro start _; simp [reverseLines]
  | cons ln rest ih =>
    intro start h
    have hside := h ln (List.mem_cons_self ln rest)
    have hrest : ∀ l ∈ rest, l.side = "debit" ∨ l.side = "credit" :=
      fun l hl => h l (List.mem_cons_of_mem ln hl)
    have hflip : lineNet acct { ln with id := start, entryID := rid, side := flipSide ln.side } =
        -lineNet acct ln := by
      by_cases hacct : ln.accountID = acct
      · rcases hside with hd | hc
        · simp [lineNet, flipSide, hacct, hd]
        · simp [lineNet, flipSide, hacct, hc]
      · simp [lineNet, hacct]
    simp only [reverseLines, List.map_cons, List.sum_cons, ih (start + 1) hrest, hflip]
    ring

/-- Extract ownership and id facts from a successful `getEntry`. -/
theorem getEntry_some_facts {s : Store} {userID entryID : UUID} {orig : JournalEntry}
    (hget : getEntry s userID entryID = some orig) :
    orig.userID = userID ∧ orig.id = entryID ∧
      s.entries.find? (fun e => e.id == entryID) = some orig := by
  unfold getEntry at hget
  cases hfind : s.entries.find? (fun e => e.id == entryID) with
  | none => rw [hfind] at hget; cases hget
  | some e0 =>
    rw [hfind] at hget
    dsimp only [] at hget
    by_cases h : (e0.userID == userID) = true
    · rw [if_pos h] at hget
      injection hget with h'
      subst h'
      refine ⟨by simpa using h, ?_, rfl⟩
      have := List.find?_some hfind
      simpa using this
    · rw [if_neg h] at hget; cases hget

/-! ## Claim C4 -/

/-- C4: for a persisted entry owned by the calling user (with well-formed
debit/credit sides, as every validated entry has), `ReverseEntry` posts a
new entry whose lines form the same multiset of (account, amount) pairs
with every side flipped, with the original's currency and category and a
memo `"reversal of <id>: <memo>"`; consequently the combined net
contribution of the entry and its reversal to every account's balance is
zero. -/
theorem reverseEntry_correct (s : Store) (userID entryID : UUID) (date : Time)
    (orig : JournalEntry)
    (huser : userID ≠ uuidNil) (hid : entryID ≠ uuidNil)
    (hget : getEntry s userID entryID = some orig)
    (hsides : ∀ l ∈ orig.lines, l.side = "debit" ∨ l.side = "credit") :
    ∃ e', (reverseEntry s userID entryID date).2 = .ok e' ∧
      (reverseEntry s userID entryID date).1.entries = s.entries ++ [e'] ∧
      ((e'.lines.map (fun l => (l.accountID, l.amount, l.side)) :
          Multiset (UUID × Amount × String)) =
        (orig.lines.map (fun l => (l.accountID, l.amount, flipSide l.side)) :
          Multiset (UUID × Amount × String))) ∧
      e'.currency = orig.currency ∧ e'.category = orig.category ∧
      e'.memo = "reversal of " ++ toString orig.id ++ ": " ++ orig.memo ∧
      ∀ acct, entryNet acct orig + entryNet acct e' = 0 := by
  obtain ⟨howner, -, -⟩ := getEntry_some_facts hget
  have hcond : ¬(userID = uuidNil ∨ entryID = uuidNil) := by tauto
  have hown' : ¬(orig.userID ≠ userID) := by simp [howner]
  unfold reverseEntry
  rw [if_neg hcond, hget]
  dsimp only
  rw [if_neg hown']
  refine ⟨_, rfl, rfl, ?_, rfl, rfl, rfl, ?_⟩
  · dsimp only
    rw [reverseLines_proj]
  · intro acct
    unfold entryNet
    dsimp only
    rw [reverseLines_net acct s.nextID orig.lines (s.nextID + 1) hsides]
    ring

/-- The concrete store used to witness the reversal theorems: user 1 owns
USD accounts 10 (Cash) and 11 (Income) and has posted entry 2 moving
1500 minor units from Income to Cash. -/
def c4Store : Store :=
  ⟨100,
   [⟨10, 1, "Cash", "USD", "asset", "bank", "monzo", false, true⟩,
    ⟨11, 1, "Income", "USD", "revenue", "salary", "employer", false, true⟩],
   [⟨2, 1, 100, "USD", "payday", "income", false,
     [⟨3, 2, 10, "debit", ⟨"USD", 1500⟩⟩, ⟨4, 2, 11, "credit", ⟨"USD", 1500⟩⟩]⟩]⟩

def c4Orig : JournalEntry :=
  ⟨2, 1, 100, "USD", "payday", "income", false,
    [⟨3, 2, 10, "debit", ⟨"USD", 1500⟩⟩, ⟨4, 2, 11, "credit", ⟨"USD", 1500⟩⟩]⟩

theorem reverseEntry_correct_witness :
    ∃ e', (reverseEntry c4Store 1 2 200).2 = .ok e' ∧
      (reverseEntry c4Store 1 2 200).1.entries = c4Store.entries ++ [e'] ∧
      ((e'.lines.map (fun l => (l.accountID, l.amount, l.side)) :
          Multiset (UUID × Amount × String)) =
        (c4Orig.lines.map (fun l => (l.accountID, l.amount, flipSide l.side)) :
          Multiset (UUID × Amount × String))) ∧
      e'.currency = c4Orig.currency ∧ e'.category = c4Orig.category ∧
      e'.memo = "reversal of " ++ toString c4Orig.id ++ ": " ++ c4Orig.memo ∧
      ∀ acct, entryNet acct c4Orig + entryNet acct e' = 0 :=
  reverseEntry_correct c4Store 1 2 200 c4Orig (by decide) (by decide) (by rfl) (by decide)

/-! ## Claim C10 -/

theorem assignLineIDs_toLineInput (eid : UUID) :
    ∀ (ls : List JournalLine) (start : Nat),
      (assignLineIDs eid start ls).map toLineInput = ls.map toLineInput := by
  intro ls
  induction ls with
  | nil => intro start; rfl
  | cons ln rest ih =>
    intro start
    simp only [assignLineIDs, List.map_cons, ih (start + 1)]
    rfl

/-- C10: when `Reclassify`'s second step fails — the correcting entry
built from `new_lines` fails validation — the call returns the error but
the reversing entry posted by the first step stays persisted: the state
is not rolled back. -/
theorem reclassify_step2_failure (s : Store) (userID entryID : UUID) (date : Time)
    (memo category : String) (newLines : List JournalLine) (orig : JournalEntry) (verr : ValErr)
    (huser : userID ≠ uuidNil) (hid : entryID ≠ uuidNil)
    (hget : getEntry s userID entryID = some orig)
    (hval : validateEntryInput s.accounts
      ⟨userID, date, orig.currency,
        (if memo = "" then "reclassify of " ++ toString orig.id else memo),
        category, newLines.map toLineInput⟩ = .error verr) :
    (reclassify s userID entryID date memo category newLines).2 = .error (.validation verr) ∧
      ∃ rev, (reverseEntry s userID entryID date).2 = .ok rev ∧
        (reclassify s userID entryID date memo category newLines).1.entries =
          s.entries ++ [rev] := by
  obtain ⟨howner, -, -⟩ := getEntry_some_facts hget
  have hcond : ¬(userID = uuidNil ∨ entryID = uuidNil) := by tauto
  have hown' : ¬(orig.userID ≠ userID) := by simp [howner]
  have hvalidate : ∀ (accs : List Account) (start : Nat),
      validateEntry accs
        { id := uuidNil, userID := userID, date := date, currency := orig.currency,
          memo := (if memo = "" then "reclassify of " ++ toString orig.id else memo),
          category := category, isReversed := false,
          lines := assignLineIDs uuidNil start newLines } =
      validateEntryInput accs
        ⟨userID, date, orig.currency,
          (if memo = "" then "reclassify of " ++ toString orig.id else memo),
          category, newLines.map toLineInput⟩ := by
    intro accs start
    unfold validateEntry
    rw [assignLineIDs_toLineInput]
  unfold reclassify
  rw [if_neg hcond, hget]
  dsimp only
  rw [if_neg hown']
  unfold reverseEntry
  rw [if_neg hcond, hget]
  dsimp only
  rw [if_neg hown']
  dsimp only
  rw [hvalidate, hval]
  exact ⟨rfl, _, rfl, rfl⟩

theorem reclassify_step2_failure_witness :
    (reclassify c4Store 1 2 200 "move" "general" []).2 =
        .error (.validation .tooFewLines) ∧
      ∃ rev, (reverseEntry c4Store 1 2 200).2 = .ok rev ∧
        (reclassify c4Store 1 2 200 "move" "general" []).1.entries =
          c4Store.entries ++ [rev] :=
  reclassify_step2_failure c4Store 1 2 200 "move" "general" [] c4Orig .tooFewLines
    (by decide) (by decide) (by rfl) (by rfl)

/-! ## Claim C3: the `AlreadyReversed` guard (modelled from the spec) -/

/-- `Store.UpdateJournalEntry` (memory store): replace the entry with the
same id.  (The store's `ErrNotFound` branch is unreachable in the uses
below, where the updated entry was just loaded.) -/
def updateJournalEntry (s : Store) (e : JournalEntry) : Store :=
  { s with entries := s.entries.map (fun e0 => if e0.id == e.id then e else e0) }

/-- Modelled from the spec: the journal service revision that enforces the
`AlreadyReversed` guard is not under `src/` — its caller (`router.go`) and
its tests refer to `errs.ErrAlreadyReversed`, which no `errs` revision under
`src/` defines.  Per §4.2 the loaded original "must not already be
reversed, else `AlreadyReversed`", and on success "the original's
`is_reversed` flag is set true as part of this operation" via a dedicated
update rather than re-running `CreateEntry`. -/
def reverseEntryChecked (s : Store) (userID entryID : UUID) (date : Time) :
    Store × Except SvcErr JournalEntry :=
  if userID = uuidNil ∨ entryID = uuidNil then (s, .error .invalid)
  else
    match getEntry s userID entryID with
    | none => (s, .error .notFound)
    | some orig =>
      if orig.userID ≠ userID then (s, .error .forbidden)
      else if orig.isReversed then (s, .error .alreadyReversed)
      else
        let rid := s.nextID
        let lines := reverseLines rid (s.nextID + 1) orig.lines
        let e : JournalEntry :=
          { id := rid, userID := userID, date := date, currency := orig.currency,
            memo := "reversal of " ++ toString orig.id ++ ": " ++ orig.memo,
            category := orig.category, isReversed := false, lines := lines }
        let s1 : Store :=
          { s with nextID := s.nextID + 1 + orig.lines.length, entries := s.entries ++ [e] }
        (updateJournalEntry s1 { orig with isReversed := true }, .ok e)

/-- Modelled from the spec: `Reclassify` of the current service revision
(also absent from `src/`, see `reverseEntryChecked`) "rejects if the
original is already reversed (`AlreadyReversed`) before attempting either
step", then composes the reversing entry with a validated correcting
entry, as the in-src `part_000` revision does. -/
def reclassifyChecked (s : Store) (userID entryID : UUID) (date : Time) (memo : String)
    (category : String) (newLines : List JournalLine) : Store × Except SvcErr JournalEntry :=
  if userID = uuidNil ∨ entryID = uuidNil then (s, .error .invalid)
  else
    match getEntry s userID entryID with
    | none => (s, .error .notFound)
    | some orig =>
      if orig.userID ≠ userID then (s, .error .forbidden)
      else if orig.isReversed then (s, .error .alreadyReversed)
      else
        let step1 := reverseEntryChecked s userID entryID date
        match step1.2 with
        | .error err => (step1.1, .error err)
        | .ok _ =>
          let s1 := step1.1
          let memo' := if memo = "" then "reclassify of " ++ toString orig.id else memo
          let tmpLines := assignLineIDs uuidNil s1.nextID newLines
          let s2 : Store := { s1 with nextID := s1.nextID + newLines.length }
          let e : JournalEntry :=
            { id := uuidNil, userID := userID, date := date, currency := orig.currency,
              memo := memo', category := category, isReversed := false, lines := tmpLines }
          match validateEntry s2.accounts e with
          | .error err => (s2, .error (.validation err))
          | .ok () =>
            let created := createEntry s2 e
            (created.1, .ok created.2)

theorem find?_append_some {α : Type} {p : α → Bool} {l₁ : List α} {a : α}
    (l₂ : List α) (h : l₁.find? p = some a) : (l₁ ++ l₂).find? p = some a := by
  induction l₁ with
  | nil => cases h
  | cons x rest ih =>
    by_cases hx : p x = true
    · rw [List.find?_cons_of_pos _ hx] at h
      rw [List.cons_append, List.find?_cons_of_pos _ hx]
      exact h
    · rw [List.find?_cons_of_neg _ (by simpa using hx)] at h
      rw [List.cons_append, List.find?_cons_of_neg _ (by simpa using hx)]
      exact ih h

theorem find?_map_comm {α : Type} (f : α → α) (p : α → Bool)
    (hp : ∀ a, p (f a) = p a) :
    ∀ l : List α, (l.map f).find? p = (l.find? p).map f := by
  intro l
  induction l with
  | nil => rfl
  | cons a rest ih =>
    by_cases h : p a = true
    · rw [List.map_cons, List.find?_cons_of_pos _ (by rw [hp a]; exact h),
        List.find?_cons_of_pos _ h]
      rfl
    · rw [List.map_cons, List.find?_cons_of_neg _ (by rw [hp a]; simpa using h),
        List.find?_cons_of_neg _ (by simpa using h)]
      exact ih

theorem getEntry_eq (s : Store) (u eid : UUID) :
    getEntry s u eid =
      match s.entries.find? (fun e => e.id == eid) with
      | some e => if e.userID == u then some e else none
      | none => none := rfl

theorem updateJournalEntry_entries (s : Store) (e : JournalEntry) :
    (updateJournalEntry s e).entries =
      s.entries.map (fun e0 => if e0.id == e.id then e else e0) := rfl

/-- After appending entries and marking the loaded original as reversed,
`GetEntry` returns the marked original. -/
theorem getEntry_update_mark {s t : Store} {u eid : UUID} {orig : JournalEntry}
    (hget : getEntry s u eid = some orig) (tail : List JournalEntry)
    (ht : t.entries = s.entries ++ tail) :
    getEntry (updateJournalEntry t { orig with isReversed := true }) u eid =
      some { orig with isReversed := true } := by
  obtain ⟨howner, hideq, hfind⟩ := getEntry_some_facts hget
  have hp : ∀ e0 : JournalEntry,
      ((fun e => e.id == eid)
        (if e0.id == ({ orig with isReversed := true } : JournalEntry).id then
          { orig with isReversed := true } else e0)) = (e0.id == eid) := by
    intro e0
    by_cases h : (e0.id == orig.id) = true
    · have h' : e0.id = orig.id := by simpa using h
      rw [show ({ orig with isReversed := true } : JournalEntry).id = orig.id from rfl,
        if_pos h]
      show (orig.id == eid) = (e0.id == eid)
      rw [h']
    · rw [show ({ orig with isReversed := true } : JournalEntry).id = orig.id from rfl,
        if_neg (by simpa using h)]
  have hfind2 : ((updateJournalEntry t { orig with isReversed := true }).entries.find?
      (fun e => e.id == eid)) = some { orig with isReversed := true } := by
    rw [updateJournalEntry_entries, find?_map_comm _ _ hp t.entries, ht,
      find?_append_some tail hfind]
    show some (if (orig.id == ({ orig with isReversed := true } : JournalEntry).id) = true
      then ({ orig with isReversed := true } : JournalEntry) else orig) = _
    rw [if_pos (by simp)]
  rw [getEntry_eq, hfind2]
  show (if (({ orig with isReversed := true } : JournalEntry).userID == u) = true
    then some ({ orig with isReversed := true } : JournalEntry) else none) = _
  rw [if_pos (by simpa using howner)]

theorem reverseEntryChecked_already {s : Store} {u eid : UUID} {orig : JournalEntry}
    (date : Time) (hu : u ≠ uuidNil) (hid : eid ≠ uuidNil)
    (hget : getEntry s u eid = some orig) (hrev : orig.isReversed = true) :
    reverseEntryChecked s u eid date = (s, .error .alreadyReversed) := by
  obtain ⟨howner, -, -⟩ := getEntry_some_facts hget
  have hcond : ¬(u = uuidNil ∨ eid = uuidNil) := by tauto
  have hown' : ¬(orig.userID ≠ u) := by simp [howner]
  unfold reverseEntryChecked
  rw [if_neg hcond, hget]
  dsimp only
  rw [if_neg hown', if_pos hrev]

theorem reclassifyChecked_already {s : Store} {u eid : UUID} {orig : JournalEntry}
    (date : Time) (memo category : String) (newLines : List JournalLine)
    (hu : u ≠ uuidNil) (hid : eid ≠ uuidNil)
    (hget : getEntry s u eid = some orig) (hrev : orig.isReversed = true) :
    reclassifyChecked s u eid date memo category newLines = (s, .error .alreadyReversed) := by
  obtain ⟨howner, -, -⟩ := getEntry_some_facts hget
  have hcond : ¬(u = uuidNil ∨ eid = uuidNil) := by tauto
  have hown' : ¬(orig.userID ≠ u) := by simp [howner]
  unfold reclassifyChecked
  rw [if_neg hcond, hget]
  dsimp only
  rw [if_neg hown', if_pos hrev]

/-- C3: a reversed entry is terminal — `ReverseEntry` and `Reclassify`
on an already-reversed entry fail with `AlreadyReversed` leaving the
store untouched (neither of `Reclassify`'s two steps runs); a successful
`ReverseEntry` sets the original's `is_reversed` flag, so a second
reversal (or a reclassify) of the same entry fails with
`AlreadyReversed` and the reverse operation can succeed at most once. -/
theorem alreadyReversed_terminal (s : Store) (userID entryID : UUID) (date : Time)
    (orig : JournalEntry)
    (huser : userID ≠ uuidNil) (hid : entryID ≠ uuidNil)
    (hget : getEntry s userID entryID = some orig) :
    (orig.isReversed = true →
      reverseEntryChecked s userID entryID date = (s, .error .alreadyReversed) ∧
      ∀ memo category newLines,
        reclassifyChecked s userID entryID date memo category newLines =
          (s, .error .alreadyReversed)) ∧
    (orig.isReversed = false →
      ∃ s' e', reverseEntryChecked s userID entryID date = (s', .ok e') ∧
        getEntry s' userID entryID = some { orig with isReversed := true } ∧
        (∀ d2, reverseEntryChecked s' userID entryID d2 = (s', .error .alreadyReversed)) ∧
        (∀ d2 memo category newLines,
          reclassifyChecked s' userID entryID d2 memo category newLines =
            (s', .error .alreadyReversed))) := by
  obtain ⟨howner, -, -⟩ := getEntry_some_facts hget
  have hcond : ¬(userID = uuidNil ∨ entryID = uuidNil) := by tauto
  have hown' : ¬(orig.userID ≠ userID) := by simp [howner]
  constructor
  · intro hrev
    exact ⟨reverseEntryChecked_already date huser hid hget hrev,
      fun memo category newLines =>
        reclassifyChecked_already date memo category newLines huser hid hget hrev⟩
  · intro hactive
    unfold reverseEntryChecked
    rw [if_neg hcond, hget]
    dsimp only
    rw [if_neg hown', if_neg (by simp [hactive])]
    have hget' := getEntry_update_mark hget
      [{ id := s.nextID, userID := userID, date := date, currency := orig.currency,
         memo := "reversal of " ++ toString orig.id ++ ": " ++ orig.memo,
         category := orig.category, isReversed := false,
         lines := reverseLines s.nextID (s.nextID + 1) orig.lines }]
      (t := { s with
        nextID := s.nextID + 1 + orig.lines.length
        entries := s.entries ++
          [{ id := s.nextID, userID := userID, date := date, currency := orig.currency,
             memo := "reversal of " ++ toString orig.id ++ ": " ++ orig.memo,
             category := orig.category, isReversed := false,
             lines := reverseLines s.nextID (s.nextID + 1) orig.lines }] })
      rfl
    refine ⟨_, _, rfl, hget', ?_, ?_⟩
    · intro d2
      exact reverseEntryChecked_already d2 huser hid hget' rfl
    · intro d2 memo category newLines
      exact reclassifyChecked_already d2 memo category newLines huser hid hget' rfl

theorem alreadyReversed_terminal_witness :
    ((c4Orig.isReversed = true →
      reverseEntryChecked c4Store 1 2 200 = (c4Store, .error .alreadyReversed) ∧
      ∀ memo category newLines,
        reclassifyChecked c4Store 1 2 200 memo category newLines =
          (c4Store, .error .alreadyReversed)) ∧
    (c4Orig.isReversed = false →
      ∃ s' e', reverseEntryChecked c4Store 1 2 200 = (s', .ok e') ∧
        getEntry s' 1 2 = some { c4Orig with isReversed := true } ∧
        (∀ d2, reverseEntryChecked s' 1 2 d2 = (s', .error .alreadyReversed)) ∧
        (∀ d2 memo category newLines,
          reclassifyChecked s' 1 2 d2 memo category newLines =
            (s', .error .alreadyReversed)))) :=
  alreadyReversed_terminal c4Store 1 2 200 c4Orig (by decide) (by decide) (by rfl)

/-! ## Balance engine (`TrialBalance`, `AccountBalance`, `src/unnamed/part_000`) -/

/-- Ascending `(date, id)` order used by the memory store's per-user
entry index. -/
def entryLE (a b : JournalEntry) : Prop :=
  a.date < b.date ∨ (a.date = b.date ∧ a.id ≤ b.id)

instance : DecidableRel entryLE := fun a b => by
  unfold entryLE; infer_instance

/-- `Store.EntriesByUserID` (memory store): the user's entries in
ascending `(date, id)` index order. -/
def entriesByUser (s : Store) (u : UUID) : List JournalEntry :=
  List.insertionSort entryLE (s.entries.filter (fun e => e.userID == u))

/-- The `asOf != nil && e.Date.After(*asOf)` skip test. -/
def afterAsOf (asOf : Option Time) (d : Time) : Bool :=
  match asOf with
  | some t => decide (t < d)
  | none => false

/-- One accumulation step of the balance engines: add a debit, subtract
a credit, and silently skip the line when `money.Amount.Add/Sub` fails
on a currency mismatch (its only failure mode here). -/
def tbStep (ln : JournalLine) (net : Amount) : Amount :=
  if ln.side = "debit" then (match net.add ln.amount with | some v => v | none => net)
  else if ln.side = "credit" then (match net.sub ln.amount with | some v => v | none => net)
  else net

/-- `AccountBalance`'s inner-loop body: only lines of the account count. -/
def applyLine (acctID : UUID) (net : Amount) (ln : JournalLine) : Amount :=
  if ln.accountID == acctID then tbStep ln net else net

/-- Currency-inference loop of `AccountBalance`: the currency of the
first line matching the account among in-bound entries, else `""`. -/
def firstMatchCurrency (acctID : UUID) (asOf : Option Time) : List JournalEntry → String
  | [] => ""
  | e :: rest =>
    if afterAsOf asOf e.date then firstMatchCurrency acctID asOf rest
    else
      match e.lines.find? (fun ln => ln.accountID == acctID) with
      | some ln => ln.amount.currency
      | none => firstMatchCurrency acctID asOf rest

/-- `AccountBalance` from `src/unnamed/part_000`: infer the currency
from the first matching line (default `"USD"`), then accumulate debits
minus credits over the account's lines up to `asOf`.  `none` models the
"user_id and account_id are required" error. -/
def accountBalance (s : Store) (userID acctID : UUID) (asOf : Option Time) : Option Amount :=
  if userID = uuidNil ∨ acctID = uuidNil then none
  else
    let entries := entriesByUser s userID
    let curr0 := firstMatchCurrency acctID asOf entries
    let curr := if curr0 = "" then "USD" else curr0
    some (entries.foldl
      (fun net e => if afterAsOf asOf e.date then net else e.lines.foldl (applyLine acctID) net)
      ⟨curr, 0⟩)

/-- The assoc-list view of `TrialBalance`'s `map[uuid.UUID]money.Amount`. -/
def alistGet (m : List (UUID × Amount)) (k : UUID) : Option Amount :=
  (m.find? (fun p => p.1 == k)).map (·.2)

def alistSet (m : List (UUID × Amount)) (k : UUID) (v : Amount) : List (UUID × Amount) :=
  if (m.find? (fun p => p.1 == k)).isSome then
    m.map (fun p => if p.1 == k then (k, v) else p)
  else m ++ [(k, v)]

/-- `TrialBalance`'s per-line body: initialise the account's net to zero
in the line's currency when absent, then add/subtract with the
currency-checked `Add`/`Sub` (mismatches silently skipped). -/
def tbLine (out : List (UUID × Amount)) (ln : JournalLine) : List (UUID × Amount) :=
  let out1 :=
    match alistGet out ln.accountID with
    | some _ => out
    | none => alistSet out ln.accountID ⟨ln.amount.currency, 0⟩
  match alistGet out1 ln.accountID with
  | none => out1
  | some net => alistSet out1 ln.accountID (tbStep ln net)

/-- `TrialBalance` from `src/unnamed/part_000` (and, identically,
`internal/service/journal/service.go`): scan the user's entries with
`date <= asOf`, accumulating per-account nets.  `none` models the
"user_id is required" error. -/
def trialBalance (s : Store) (u : UUID) (asOf : Option Time) : Option (List (UUID × Amount)) :=
  if u = uuidNil then none
  else
    some ((entriesByUser s u).foldl
      (fun out e => if afterAsOf asOf e.date then out else e.lines.foldl tbLine out) [])

/-- All lines of the in-bound (date within `asOf`) entries, in scan order. -/
def linesThrough (asOf : Option Time) : List JournalEntry → List JournalLine
  | [] => []
  | e :: rest => (if afterAsOf asOf e.date then [] else e.lines) ++ linesThrough asOf rest

/-- The signed minor units a line contributes on its side: debits add,
credits subtract, unknown sides contribute nothing. -/
def sideContrib (ln : JournalLine) : Int :=
  if ln.side = "debit" then ln.amount.minor
  else if ln.side = "credit" then -ln.amount.minor else 0

/-- A line's contribution to a net held in currency `c`: zero unless the
currencies agree (the engine's `Add`/`Sub` skip mismatches). -/
def lineContrib (ln : JournalLine) (c : String) : Int :=
  if ln.amount.currency = c then sideContrib ln else 0

/-- Specification-side per-account net: debits minus credits over the
account's lines carrying currency `c`; lines of other accounts, other
currencies or unknown sides contribute nothing. -/
def signedSum (k : UUID) (c : String) : List JournalLine → Int
  | [] => 0
  | ln :: rest =>
    (if ln.accountID = k then lineContrib ln c else 0) + signedSum k c rest

theorem find?_append_none {α : Type} {p : α → Bool} {l₁ : List α}
    (l₂ : List α) (h : l₁.find? p = none) : (l₁ ++ l₂).find? p = l₂.find? p := by
  induction l₁ with
  | nil => rfl
  | cons x rest ih =>
    by_cases hx : p x = true
    · rw [List.find?_cons_of_pos _ hx] at h; cases h
    · rw [List.find?_cons_of_neg _ (by simpa using hx)] at h
      rw [List.cons_append, List.find?_cons_of_neg _ (by simpa using hx)]
      exact ih h

theorem tbStep_eq (ln : JournalLine) (net : Amount) :
    tbStep ln net = ⟨net.currency, net.minor + lineContrib ln net.currency⟩ := by
  unfold tbStep Amount.add Amount.sub lineContrib sideContrib
  by_cases hcur : ln.amount.currency = net.currency
  · by_cases hd : ln.side = "debit"
    · simp [hd, hcur]
    · by_cases hcr : ln.side = "credit"
      · simp [hd, hcr, hcur, Int.sub_eq_add_neg]
      · simp [hd, hcr, hcur]
  · have hcur' : ¬net.currency = ln.amount.currency := fun h => hcur h.symm
    by_cases hd : ln.side = "debit"
    · simp [hd, hcur, hcur']
    · by_cases hcr : ln.side = "credit"
      · simp [hd, hcr, hcur, hcur']
      · simp [hd, hcr, hcur, hcur']

theorem tbStep_currency (ln : JournalLine) (net : Amount) :
    (tbStep ln net).currency = net.currency := by rw [tbStep_eq]

theorem tbStep_minor (ln : JournalLine) (net : Amount) :
    (tbStep ln net).minor = net.minor + lineContrib ln net.currency := by rw [tbStep_eq]

theorem foldl_entries_linesThrough {β : Type} (f : β → JournalLine → β) (asOf : Option Time) :
    ∀ (entries : List JournalEntry) (init : β),
      entries.foldl
        (fun acc e => if afterAsOf asOf e.date then acc else e.lines.foldl f acc) init =
        (linesThrough asOf entries).foldl f init := by
  intro entries
  induction entries with
  | nil => intro init; rfl
  | cons e rest ih =>
    intro init
    by_cases hskip : afterAsOf asOf e.date = true
    · simp [linesThrough, hskip, ih]
    · simp [linesThrough, hskip, ih, List.foldl_append]

theorem foldl_applyLine (k : UUID) :
    ∀ (lines : List JournalLine) (net : Amount),
      lines.foldl (applyLine k) net = ⟨net.currency, net.minor + signedSum k net.currency lines⟩ := by
  intro lines
  induction lines with
  | nil => intro net; simp [signedSum]
  | cons ln rest ih =>
    intro net
    rw [List.foldl_cons]
    by_cases hk : ln.accountID = k
    · rw [show applyLine k net ln = tbStep ln net by
        unfold applyLine; rw [if_pos (by simpa using hk)]]
      rw [ih, tbStep_currency, tbStep_minor]
      show (⟨net.currency, net.minor + lineContrib ln net.currency +
        signedSum k net.currency rest⟩ : Amount) = _
      rw [show signedSum k net.currency (ln :: rest) =
        (if ln.accountID = k then lineContrib ln net.currency else 0) +
          signedSum k net.currency rest from rfl]
      rw [if_pos hk]
      simp only [Amount.mk.injEq, true_and]
      ring
    · rw [show applyLine k net ln = net by unfold applyLine; rw [if_neg (by simpa using hk)]]
      rw [ih]
      rw [show signedSum k net.currency (ln :: rest) =
        (if ln.accountID = k then lineContrib ln net.currency else 0) +
          signedSum k net.currency rest from rfl]
      rw [if_neg hk]
      simp only [Amount.mk.injEq, true_and]
      ring

theorem firstMatchCurrency_cons (k : UUID) (asOf : Option Time) (e : JournalEntry)
    (rest : List JournalEntry) :
    firstMatchCurrency k asOf (e :: rest) =
      if afterAsOf asOf e.date then firstMatchCurrency k asOf rest
      else
        match e.lines.find? (fun ln => ln.accountID == k) with
        | some ln => ln.amount.currency
        | none => firstMatchCurrency k asOf rest := rfl

theorem linesThrough_cons (asOf : Option Time) (e : JournalEntry)
    (rest : List JournalEntry) :
    linesThrough asOf (e :: rest) =
      (if afterAsOf asOf e.date then [] else e.lines) ++ linesThrough asOf rest := rfl

theorem firstMatchCurrency_eq (k : UUID) (asOf : Option Time) :
    ∀ entries, firstMatchCurrency k asOf entries =
      (match (linesThrough asOf entries).find? (fun ln => ln.accountID == k) with
       | some ln => ln.amount.currency
       | none => "") := by
  intro entries
  induction entries with
  | nil => rfl
  | cons e rest ih =>
    rw [firstMatchCurrency_cons, linesThrough_cons]
    by_cases hskip : afterAsOf asOf e.date = true
    · rw [if_pos hskip, if_pos hskip, ih, List.nil_append]
    · rw [if_neg hskip, if_neg hskip]
      cases hfind : e.lines.find? (fun ln => ln.accountID == k) with
      | some ln => rw [find?_append_some _ hfind]
      | none => rw [ih, find?_append_none _ hfind]

/-! ## Claim C6 -/

/-- C6 (amended): `AccountBalance`'s currency is that of the first line
matching the account among in-bound entries, defaulting to `"USD"` when
the account has no matching line — not the account's stored currency;
in particular an account with zero matching lines yields a zero amount
denominated in USD whatever the account's currency is.  The returned
minor units are the debits-minus-credits of the account's lines whose
currency equals that inferred currency. -/
theorem accountBalance_first_line_currency (s : Store) (u a : UUID) (asOf : Option Time)
    (hu : u ≠ uuidNil) (ha : a ≠ uuidNil)
    (hcur : ∀ ln ∈ linesThrough asOf (entriesByUser s u), ln.amount.currency ≠ "") :
    accountBalance s u a asOf =
      some (match (linesThrough asOf (entriesByUser s u)).find? (fun ln => ln.accountID == a) with
        | some ln0 => ⟨ln0.amount.currency,
            signedSum a ln0.amount.currency (linesThrough asOf (entriesByUser s u))⟩
        | none => ⟨"USD", 0⟩) := by
  unfold accountBalance
  rw [if_neg (by tauto)]
  dsimp only
  rw [foldl_entries_linesThrough (applyLine a) asOf, foldl_applyLine, firstMatchCurrency_eq]
  cases hfind : (linesThrough asOf (entriesByUser s u)).find? (fun ln => ln.accountID == a) with
  | some ln0 =>
    have hmem : ln0 ∈ linesThrough asOf (entriesByUser s u) := List.mem_of_find?_eq_some hfind
    rw [if_neg (hcur ln0 hmem)]
    simp
  | none =>
    rw [if_pos rfl]
    have hnomatch : ∀ ln ∈ linesThrough asOf (entriesByUser s u), ln.accountID ≠ a := by
      intro ln hln
      have := List.find?_eq_none.mp hfind ln hln
      simpa using this
    have hzero : ∀ (L : List JournalLine), (∀ ln ∈ L, ln.accountID ≠ a) →
        signedSum a "USD" L = 0 := by
      intro L h
      induction L with
      | nil => rfl
      | cons ln rest ih =>
        unfold signedSum
        rw [ih (fun x hx => h x (List.mem_cons_of_mem _ hx)),
          if_neg (h ln (List.mem_cons_self _ _))]
        norm_num
    simp [hzero _ hnomatch]

/-- User 1 owns EUR account 20 and has posted nothing to it. -/
def c6Store : Store :=
  ⟨100, [⟨20, 1, "Savings", "EUR", "asset", "bank", "monzo", false, true⟩], []⟩

/-- C6 counterexample: the balance of the user's EUR account with zero
lines is denominated in USD, not in the account's stored currency. -/
theorem accountBalance_currency_refutes :
    (accountBalance c6Store 1 20 none).map (·.currency) = some "USD" ∧
      (lookupAccount c6Store.accounts 20).map (·.currency) = some "EUR" := ⟨rfl, rfl⟩

theorem accountBalance_first_line_currency_witness :
    accountBalance c6Store 1 20 none =
      some (match (linesThrough none (entriesByUser c6Store 1)).find?
          (fun ln => ln.accountID == 20) with
        | some ln0 => ⟨ln0.amount.currency,
            signedSum 20 ln0.amount.currency (linesThrough none (entriesByUser c6Store 1))⟩
        | none => ⟨"USD", 0⟩) :=
  accountBalance_first_line_currency c6Store 1 20 none (by decide) (by decide) (by decide)

/-! ## Claim C7 -/

theorem alistGet_set_self (m : List (UUID × Amount)) (k : UUID) (v : Amount) :
    alistGet (alistSet m k v) k = some v := by
  have hfn : ∀ p0 : UUID × Amount,
      ((fun p => p.1 == k) (if p0.1 == k then (k, v) else p0)) = (p0.1 == k) := by
    intro p0
    by_cases h : (p0.1 == k) = true
    · rw [if_pos h]; simp [h]
    · rw [if_neg h]
  unfold alistSet
  by_cases hp : (m.find? (fun p => p.1 == k)).isSome = true
  · rw [if_pos hp]
    unfold alistGet
    rw [find?_map_comm _ _ hfn m]
    obtain ⟨p0, hp0⟩ := Option.isSome_iff_exists.mp hp
    rw [hp0]
    dsimp only [Option.map]
    rw [if_pos (List.find?_some hp0)]
  · rw [if_neg hp]
    have hn : m.find? (fun p => p.1 == k) = none := by
      cases hfm : m.find? (fun p => p.1 == k) with
      | none => rfl
      | some p0 => rw [hfm] at hp; simp at hp
    unfold alistGet
    rw [find?_append_none _ hn]
    simp [List.find?]

theorem alistGet_set_other (m : List (UUID × Amount)) (k k' : UUID) (v : Amount)
    (h : k' ≠ k) :
    alistGet (alistSet m k v) k' = alistGet m k' := by
  have hkk : (k == k') = false := by simpa using (Ne.symm h)
  have hfn : ∀ p0 : UUID × Amount,
      ((fun p => p.1 == k') (if p0.1 == k then (k, v) else p0)) = (p0.1 == k') := by
    intro p0
    by_cases h0 : (p0.1 == k) = true
    · rw [if_pos h0]
      have h0' : p0.1 = k := by simpa using h0
      show (k == k') = (p0.1 == k')
      rw [h0']
    · rw [if_neg h0]
  unfold alistSet
  by_cases hp : (m.find? (fun p => p.1 == k)).isSome = true
  · rw [if_pos hp]
    unfold alistGet
    rw [find?_map_comm _ _ hfn m]
    cases hf : m.find? (fun p => p.1 == k') with
    | none => rfl
    | some p0 =>
      dsimp only [Option.map]
      have h0' : p0.1 = k' := by simpa using List.find?_some hf
      rw [if_neg (by simp [h0', h])]
  · rw [if_neg hp]
    unfold alistGet
    cases hf : m.find? (fun p => p.1 == k') with
    | some p0 => rw [find?_append_some _ hf]
    | none =>
      rw [find?_append_none _ hf]
      simp [List.find?, hkk]

theorem alistGet_tbLine (out : List (UUID × Amount)) (ln : JournalLine) (k : UUID) :
    alistGet (tbLine out ln) k =
      if ln.accountID = k then
        some (tbStep ln ((alistGet out ln.accountID).getD ⟨ln.amount.currency, 0⟩))
      else alistGet out k := by
  unfold tbLine
  cases hg : alistGet out ln.accountID with
  | some net =>
    dsimp only
    rw [hg]
    dsimp only [Option.getD]
    by_cases hk : ln.accountID = k
    · rw [if_pos hk, ← hk, alistGet_set_self]
    · rw [if_neg hk, alistGet_set_other _ _ _ _ (Ne.symm hk)]
  | none =>
    dsimp only
    rw [alistGet_set_self]
    dsimp only [Option.getD]
    by_cases hk : ln.accountID = k
    · rw [if_pos hk, ← hk, alistGet_set_self]
    · rw [if_neg hk, alistGet_set_other _ _ _ _ (Ne.symm hk),
        alistGet_set_other _ _ _ _ (Ne.symm hk)]

theorem foldl_tbLine_get (k : UUID) :
    ∀ (lines : List JournalLine) (out : List (UUID × Amount)),
      alistGet (lines.foldl tbLine out) k =
        match alistGet out k with
        | some net => some ⟨net.currency, net.minor + signedSum k net.currency lines⟩
        | none =>
          match lines.find? (fun ln => ln.accountID == k) with
          | some ln0 => some ⟨ln0.amount.currency, signedSum k ln0.amount.currency lines⟩
          | none => none := by
  intro lines
  induction lines with
  | nil =>
    intro out
    cases hg : alistGet out k with
    | some net => simp [signedSum, hg]
    | none => simp [List.find?, hg]
  | cons ln rest ih =>
    intro out
    rw [List.foldl_cons, ih (tbLine out ln), alistGet_tbLine]
    have hsum : ∀ c : String, signedSum k c (ln :: rest) =
        (if ln.accountID = k then lineContrib ln c else 0) + signedSum k c rest :=
      fun c => rfl
    by_cases hk : ln.accountID = k
    · rw [if_pos hk]
      cases hg : alistGet out k with
      | some net =>
        have hg' : alistGet out ln.accountID = some net := by rw [hk]; exact hg
        rw [hg']
        dsimp only [Option.getD]
        rw [tbStep_currency, tbStep_minor]
        try dsimp only
        rw [hsum net.currency, if_pos hk]
        simp only [Option.some.injEq, Amount.mk.injEq, true_and]
        ring
      | none =>
        have hg' : alistGet out ln.accountID = none := by rw [hk]; exact hg
        rw [hg']
        dsimp only [Option.getD]
        rw [tbStep_currency, tbStep_minor]
        try dsimp only
        rw [show (ln :: rest).find? (fun ln => ln.accountID == k) = some ln by
          have h' : (ln.accountID == k) = true := by simpa using hk
          simp [List.find?, h']]
        try dsimp only
        rw [hsum ln.amount.currency, if_pos hk]
        simp only [Option.some.injEq, Amount.mk.injEq, true_and]
        ring
    · rw [if_neg hk]
      cases hg : alistGet out k with
      | some net =>
        try dsimp only
        rw [hsum net.currency, if_neg hk]
        simp only [Option.some.injEq, Amount.mk.injEq, true_and]
        ring_nf
      | none =>
        try dsimp only
        rw [show (ln :: rest).find? (fun ln => ln.accountID == k) =
          rest.find? (fun ln => ln.accountID == k) by
          have h' : (ln.accountID == k) = false := by simpa using hk
          simp [List.find?, h']]
        cases hfind : rest.find? (fun ln => ln.accountID == k) with
        | some ln0 =>
          try dsimp only
          rw [hsum ln0.amount.currency, if_neg hk]
          simp only [Option.some.injEq, Amount.mk.injEq, true_and]
          ring_nf
        | none => rfl

/-- C7 (amended): `TrialBalance` scans exactly the user's entries with
`date <= as_of` (all when absent); per account the net is the sum of
debit amounts minus credit amounts over the account's lines whose
currency equals that of the account's first matching line (lines in
other currencies are skipped, never netted together); and an account is
present in the returned map iff it has at least one matching line — in
particular an account whose lines net to zero remains in the map with a
zero amount rather than being omitted. -/
theorem trialBalance_per_account (s : Store) (u : UUID) (asOf : Option Time)
    (hu : u ≠ uuidNil) :
    ∃ m, trialBalance s u asOf = some m ∧
      ∀ k, alistGet m k =
        match (linesThrough asOf (entriesByUser s u)).find? (fun ln => ln.accountID == k) with
        | some ln0 => some ⟨ln0.amount.currency,
            signedSum k ln0.amount.currency (linesThrough asOf (entriesByUser s u))⟩
        | none => none := by
  unfold trialBalance
  rw [if_neg hu]
  refine ⟨_, rfl, ?_⟩
  intro k
  rw [foldl_entries_linesThrough tbLine asOf, foldl_tbLine_get]
  rfl

/-- User 1 owns USD account 30; entry 5 posts a debit and a credit of
100 minor units to that same account, so its net is zero. -/
def c7Store : Store :=
  ⟨100, [⟨30, 1, "Cash", "USD", "asset", "bank", "monzo", false, true⟩],
   [⟨5, 1, 100, "USD", "wash", "general", false,
     [⟨6, 5, 30, "debit", ⟨"USD", 100⟩⟩, ⟨7, 5, 30, "credit", ⟨"USD", 100⟩⟩]⟩]⟩

/-- C7 counterexample: an account whose accumulated net is zero is NOT
omitted — `TrialBalance` returns it with a zero amount. -/
theorem trialBalance_zero_net_refutes :
    trialBalance c7Store 1 none = some [(30, ⟨"USD", 0⟩)] := by rfl

theorem trialBalance_per_account_witness :
    ∃ m, trialBalance c7Store 1 none = some m ∧
      ∀ k, alistGet m k =
        match (linesThrough none (entriesByUser c7Store 1)).find? (fun ln => ln.accountID == k) with
        | some ln0 => some ⟨ln0.amount.currency,
            signedSum k ln0.amount.currency (linesThrough none (entriesByUser c7Store 1))⟩
        | none => none :=
  trialBalance_per_account c7Store 1 none (by decide)

/-! ## Claim C5: the account ledger endpoint (`src/unnamed/part_013`/`part_014`) -/

/-- The `from != nil && e.Date.Before(*from)` skip test. -/
def beforeFrom (lo : Option Time) (d : Time) : Bool :=
  match lo with
  | some t => decide (d < t)
  | none => false

/-- One row of the flat per-account line list the ledger endpoint builds. -/
structure LedgerRec where
  date : Time
  entryID : UUID
  lineID : UUID
  side : String
  amountMinor : Int
deriving DecidableEq, Repr

/-- Collect the account's lines from the user's entries within the
`from`/`to` bounds, in scan order. -/
def recsOf (acctID : UUID) (lo hi : Option Time) : List JournalEntry → List LedgerRec
  | [] => []
  | e :: rest =>
    (if beforeFrom lo e.date || afterAsOf hi e.date then []
     else (e.lines.filter (fun ln => ln.accountID == acctID)).map
       (fun ln => ⟨e.date, e.id, ln.id, ln.side, ln.amount.minor⟩))
    ++ recsOf acctID lo hi rest

/-- The currency picked up from the first matching line during the scan
(`if currency == "" { currency = ... }`), else `""`. -/
def ledgerCurrency (acctID : UUID) (lo hi : Option Time) : List JournalEntry → String
  | [] => ""
  | e :: rest =>
    if beforeFrom lo e.date || afterAsOf hi e.date then ledgerCurrency acctID lo hi rest
    else
      match e.lines.find? (fun ln => ln.accountID == acctID) with
      | some ln => ln.amount.currency
      | none => ledgerCurrency acctID lo hi rest

/-- The endpoint's sort order: `(date, entry id, line id)` ascending,
uuid strings modelled by their `Nat` order. -/
def recLE (a b : LedgerRec) : Prop :=
  a.date < b.date ∨ (a.date = b.date ∧
    (a.entryID < b.entryID ∨ (a.entryID = b.entryID ∧ a.lineID ≤ b.lineID)))

instance : DecidableRel recLE := fun a b => by
  unfold recLE; infer_instance

/-- Cursor application: scan forward while dates do not pass the cursor
timestamp, resuming just after the row whose `(date, line id)` matches;
`0` when no row matches. -/
def cursorScan (ts : Time) (cid : UUID) : List LedgerRec → Nat
  | [] => 0
  | r :: rest =>
    if ts < r.date then 0
    else if r.date = ts ∧ r.lineID = cid then 1
    else
      let n := cursorScan ts cid rest
      if n = 0 then 0 else n + 1

/-- `bal.Add/Sub(mustAmount(curr, rc.amount))` with the error ignored, as
in the source (`bal, _ = bal.Add(...)`): on a currency mismatch the Go
assignment leaves the zero `money.Amount`. -/
def ledgerAdd (curr : String) (b : Amount) (rc : LedgerRec) : Amount :=
  if rc.side = "debit" then (match b.add ⟨curr, rc.amountMinor⟩ with | some v => v | none => ⟨"", 0⟩)
  else (match b.sub ⟨curr, rc.amountMinor⟩ with | some v => v | none => ⟨"", 0⟩)

/-- The page rows paired with their reported running balance. -/
def runItems (curr : String) : Amount → List LedgerRec → List (LedgerRec × Int)
  | _, [] => []
  | b, rc :: rest =>
    let b1 := ledgerAdd curr b rc
    (rc, b1.minor) :: runItems curr b1 rest

structure LedgerPage where
  currency : String
  items : List (LedgerRec × Int)
  nextCursor : Option (Time × UUID)
deriving DecidableEq, Repr

/-- `getAccountLedger` from `src/unnamed/part_013`: build and sort the
account's rows, apply the cursor, seed the running balance — from zero
on a first page, but on a cursor resume from `AccountBalance(..., to)`
PLUS a replay of the rows before the page — then page and report
running balances, emitting a next cursor iff rows remain. -/
def getAccountLedger (s : Store) (userID acctID : UUID) (lo hi : Option Time)
    (lim : Nat) (cursor : Option (Time × UUID)) : Option LedgerPage :=
  match lookupAccount s.accounts acctID with
  | none => none
  | some acc =>
    if acc.userID ≠ userID then none
    else
      let entries := entriesByUser s userID
      let list := List.insertionSort recLE (recsOf acctID lo hi entries)
      let curr := ledgerCurrency acctID lo hi entries
      let start := match cursor with | none => 0 | some (ts, cid) => cursorScan ts cid list
      match accountBalance s userID acctID hi with
      | none => none
      | some bal0 =>
        let balStart :=
          if 0 < start then (list.take start).foldl (ledgerAdd curr) bal0
          else (⟨curr, 0⟩ : Amount)
        let page := (list.drop start).take lim
        let next :=
          if start + lim < list.length then page.getLast?.map (fun rc => (rc.date, rc.lineID))
          else none
        some ⟨curr, runItems curr balStart page, next⟩

/-- User 1's Cash account 10 receives 100 on day 100 (entry 2) and 50 on
day 200 (entry 5), each balanced against Income account 11. -/
def c5Store : Store :=
  ⟨100,
   [⟨10, 1, "Cash", "USD", "asset", "bank", "monzo", false, true⟩,
    ⟨11, 1, "Income", "USD", "revenue", "salary", "employer", false, true⟩],
   [⟨2, 1, 100, "USD", "first", "income", false,
     [⟨3, 2, 10, "debit", ⟨"USD", 100⟩⟩, ⟨4, 2, 11, "credit", ⟨"USD", 100⟩⟩]⟩,
    ⟨5, 1, 200, "USD", "second", "income", false,
     [⟨6, 5, 10, "debit", ⟨"USD", 50⟩⟩, ⟨7, 5, 11, "credit", ⟨"USD", 50⟩⟩]⟩]⟩

/-- C5: evaluating the endpoint at the failing input.  Page 1
(limit 1, no cursor) reports running balance 100 and hands out the
cursor of line 3; resuming from that cursor, the endpoint seeds the
balance with the full `AccountBalance` (150) and then re-adds the
prefix row (+100), so the final line of the scan reports 300 — while
`AccountBalance` with `as_of` at that line's date (and unbounded) is
150.  The running balance after the resumed prefix does not equal
`AccountBalance(as_of = last date in prefix)`. -/
theorem getAccountLedger_resume_refutes :
    (getAccountLedger c5Store 1 10 none none 1 none).map
        (fun p => (p.items.map (·.2), p.nextCursor)) = some ([100], some (100, 3)) ∧
      (getAccountLedger c5Store 1 10 none none 1 (some (100, 3))).map
        (fun p => (p.items.map (·.2), p.nextCursor)) = some ([300], none) ∧
      accountBalance c5Store 1 10 (some 200) = some ⟨"USD", 150⟩ ∧
      accountBalance c5Store 1 10 none = some ⟨"USD", 150⟩ ∧
      (300 : Int) ≠ 150 := by
  refine ⟨rfl, rfl, rfl, rfl, by decide⟩

/-! ## Account service (`src/unnamed/part_001`) and batch coordinator -/

/-- `strings.ToLower`, modelled by mapping `Char.toLower` over the rune
list (the inputs here — paths, groups, currency codes — are ASCII, on
which the two agree). -/
def lowerStr (s : String) : String := String.mk (s.toList.map Char.toLower)

/-- `strings.ToUpper` over the same ASCII domain. -/
def upperStr (s : String) : String := String.mk (s.toList.map Char.toUpper)

/-- `strings.TrimSpace`: drop whitespace runes from both ends. -/
def trimStr (s : String) : String :=
  String.mk (((s.toList.dropWhile Char.isWhitespace).reverse.dropWhile
    Char.isWhitespace).reverse)

/-- A character allowed in a slug: `[a-z0-9_]`. -/
def isSlugChar (c : Char) : Bool :=
  (c ≥ 'a' && c ≤ 'z') || (c ≥ '0' && c ≤ '9') || c == '_'

/-- `slug.IsSlug`: matches `^[a-z0-9_]{2,40}$`. -/
def isSlug (s : String) : Bool :=
  decide (2 ≤ s.length) && decide (s.length ≤ 40) && s.toList.all isSlugChar

/-- The rune loop of `slug.Slugify`: keep `[a-z0-9_]`, map other runs to
a single `_`, never emit doubled underscores, stop at 40 runes.  The
`continue` on a repeated underscore skips the length check, as in Go. -/
def slugifyGo : List Char → Bool → List Char → List Char
  | out, _, [] => out
  | out, prev, c :: rest =>
    if isSlugChar c then
      if c = '_' then
        if prev then slugifyGo out prev rest
        else
          let out1 := out ++ ['_']
          if 40 ≤ out1.length then out1 else slugifyGo out1 true rest
      else
        let out1 := out ++ [c]
        if 40 ≤ out1.length then out1 else slugifyGo out1 false rest
    else
      if prev then
        (if 40 ≤ out.length then out else slugifyGo out prev rest)
      else
        let out1 := out ++ ['_']
        if 40 ≤ out1.length then out1 else slugifyGo out1 true rest

/-- `slug.Slugify`: lowercase, squash non-slug runs to `_`, cap at 40,
trim boundary underscores. -/
def slugify (s : String) : String :=
  if s = "" then s
  else
    let out := slugifyGo [] false (lowerStr s).toList
    String.mk (((out.dropWhile (· = '_')).reverse.dropWhile (· = '_')).reverse)

/-- `strings.EqualFold`, modelled over ASCII as lower-case equality. -/
def equalFold (x y : String) : Bool := lowerStr x == lowerStr y

/-- `normalizedPathString` from the account service: the per-user
uniqueness key; opening-balances accounts always normalise to
`equity:opening_balances`, others to `type:group:slug(vendor)`. -/
def normalizedPathString (a : Account) : String :=
  if a.type = "equity" && equalFold a.group "opening_balances" then "equity:opening_balances"
  else lowerStr a.type ++ ":" ++ lowerStr a.group ++ ":" ++ slugify a.vendor

/-- `ValidateCreate` (part_001): required fields, slug group, known type,
and the opening-balances rules; the error is the message text. -/
def validateCreate (a0 : Account) : Except String Unit :=
  let a := { a0 with currency := if a0.currency ≠ "" then upperStr a0.currency else a0.currency }
  if a.userID = uuidNil then .error "invalid"
  else if a.name = "" then .error "name is required"
  else if a.currency = "" then .error "currency is required"
  else if a.group = "" then .error "group is required"
  else if ¬ isSlug (lowerStr a.group) then .error "invalid group slug"
  else if a.vendor = "" then .error "vendor is required"
  else if ¬ (a.type = "asset" ∨ a.type = "liability" ∨ a.type = "equity" ∨
      a.type = "revenue" ∨ a.type = "expense") then .error "invalid account type"
  else if a.system || equalFold a.group "opening_balances" then
    (if a.type ≠ "equity" then .error "opening balances must be equity type"
     else if ¬ equalFold a.group "opening_balances" then
       .error "invalid system account group; expected opening_balances"
     else .ok ())
  else .ok ()

/-- `EnsureOpeningBalanceAccount` (part_001): return the existing
per-currency system account, else create it. -/
def ensureOpeningBalanceAccount (s : Store) (userID : UUID) (currency : String) :
    Store × Except String Account :=
  if userID = uuidNil ∨ currency = "" then (s, .error "invalid")
  else
    let curr := upperStr currency
    let existing := s.accounts.filter (fun a => a.userID == userID)
    match existing.find? (fun a =>
        equalFold a.currency curr && equalFold (normalizedPathString a) "equity:opening_balances") with
    | some a => (s, .ok a)
    | none =>
      let a : Account :=
        ⟨s.nextID, userID, "Opening Balances", curr, "equity", "opening_balances", "System", true, true⟩
      match validateCreate a with
      | .error e => (s, .error e)
      | .ok () => ({ s with nextID := s.nextID + 1, accounts := s.accounts ++ [a] }, .ok a)

/-- A per-item failure record of a batch operation (`account.ItemError`). -/
structure ItemError where
  index : Nat
  code : String
  message : String
deriving DecidableEq, Repr

/-- The `ErrPathExists` message. -/
def pathExistsMsg : String := "account path already exists for user"

/-- The normalization `EnsureAccountsBatch` applies to each spec. -/
def normalizeSpec (userID : UUID) (a : Account) : Account :=
  { a with
    userID := userID
    group := trimStr a.group
    vendor := trimStr a.vendor
    currency := upperStr (trimStr a.currency) }

/-- The intra-batch/against-existing uniqueness key `path|CURRENCY`. -/
def desiredKey (a : Account) : String :=
  normalizedPathString a ++ "|" ++ upperStr a.currency

/-- Does `a` clash with an account already in `existing`
(same user, equal-fold path and currency)? -/
def extConflictB (existing : List Account) (userID : UUID) (a : Account) : Bool :=
  existing.any (fun other =>
    other.userID == userID && equalFold (normalizedPathString other) (normalizedPathString a) &&
      equalFold other.currency a.currency)

/-- The opening-balances provisioning loop of `EnsureAccountsBatch`:
one `EnsureOpeningBalanceAccount` per distinct currency, first-occurrence
order; on error the batch aborts with that error. -/
def obLoop (userID : UUID) : Store → List String → List Account → Store × Option String
  | s, _, [] => (s, none)
  | s, seenCurr, a :: rest =>
    if a.currency ∈ seenCurr then obLoop userID s seenCurr rest
    else
      match ensureOpeningBalanceAccount s userID a.currency with
      | (s1, .ok _) => obLoop userID s1 (a.currency :: seenCurr) rest
      | (s1, .error e) => (s1, some e)

/-- The conflict scan of `EnsureAccountsBatch`: a later item whose key
was already claimed yields records for it and for the first claimant;
otherwise the item is checked against the existing accounts. -/
def conflictLoop (existing : List Account) (userID : UUID) :
    List (String × Nat) → Nat → List ItemError → List Account → List ItemError
  | _, _, acc, [] => acc
  | seen, i, acc, a :: rest =>
    let key := desiredKey a
    match seen.find? (fun p => p.1 == key) with
    | some p =>
        conflictLoop existing userID seen (i + 1)
          (acc ++ [⟨i, "conflict", pathExistsMsg⟩, ⟨p.2, "conflict", pathExistsMsg⟩]) rest
    | none =>
        let seen1 := seen ++ [(key, i)]
        if extConflictB existing userID a then
          conflictLoop existing userID seen1 (i + 1) (acc ++ [⟨i, "conflict", pathExistsMsg⟩]) rest
        else conflictLoop existing userID seen1 (i + 1) acc rest

/-- The per-item account constructed inside the batch transaction:
fresh id, `Active=true`, opening-balances specs coerced to
`Vendor=System, System=true`. -/
def buildAccount (id : UUID) (a : Account) : Account :=
  let acc : Account := { a with id := id, active := true }
  if acc.type = "equity" && equalFold acc.group "opening_balances" then
    { acc with vendor := "System", system := true }
  else acc

def buildAccounts (start : Nat) : List Account → List Account
  | [] => []
  | a :: rest => buildAccount start a :: buildAccounts (start + 1) rest

/-- The result quadruple of `EnsureAccountsBatch`. -/
structure BatchResult where
  store : Store
  created : List Account
  itemErrors : List ItemError
  fatal : Option String
deriving DecidableEq, Repr

/-- `batchTx.Commit`'s conflict re-check (memory store), which compares
`Account.Path()` with `EqualFold` against every stored account of the
same user and exact currency.  The `Path()` of the `Group`-field
`Account` revision is absent from `src/`; per the spec (§3) the path
used for uniqueness is the normalized `type:group:vendor` key, i.e.
`normalizedPathString`. -/
def commitConflictB (stored : List Account) (txAccounts : List Account) : Bool :=
  txAccounts.any (fun a => stored.any (fun ex =>
    ex.userID == a.userID && ex.currency == a.currency &&
      equalFold (normalizedPathString ex) (normalizedPathString a)))

/-- `EnsureAccountsBatch` from `src/unnamed/part_001` over the memory
store's transactional writer (`src/unnamed/part_016`): normalize and
validate every item (any failure → per-item records, nothing persisted);
provision opening-balances accounts per currency; detect intra-batch
and against-existing conflicts (any → per-item records, none of the
items persisted); otherwise create all items in one transaction and
commit. -/
def ensureAccountsBatch (s : Store) (userID : UUID) (specs : List Account) : BatchResult :=
  if userID = uuidNil then ⟨s, [], [], some "invalid"⟩
  else
    let normalized := specs.map (normalizeSpec userID)
    let valErrs := normalized.enum.filterMap (fun p =>
      match validateCreate p.2 with
      | .error e => some (⟨p.1, "validation_error", e⟩ : ItemError)
      | .ok () => none)
    if valErrs ≠ [] then ⟨s, [], valErrs, none⟩
    else
      match obLoop userID s [] normalized with
      | (s1, some e) => ⟨s1, [], [], some e⟩
      | (s1, none) =>
        let existing := s1.accounts.filter (fun a => a.userID == userID)
        let confErrs := conflictLoop existing userID [] 0 [] normalized
        if confErrs ≠ [] then ⟨s1, [], confErrs, none⟩
        else
          let created := buildAccounts s1.nextID normalized
          let s2 : Store := { s1 with nextID := s1.nextID + normalized.length }
          if commitConflictB s1.accounts created then ⟨s2, [], [], some "conflict"⟩
          else ⟨{ s2 with accounts := s2.accounts ++ created }, created, [], none⟩

/-- The shape of every account the opening-balances provisioning phase
can add to the store. -/
def obShape (a : Account) : Prop :=
  a.name = "Opening Balances" ∧ a.type = "equity" ∧ a.group = "opening_balances" ∧
  a.vendor = "System" ∧ a.system = true

theorem ensureOB_accounts (s : Store) (u : UUID) (c : String) :
    ∀ x ∈ (ensureOpeningBalanceAccount s u c).1.accounts, x ∈ s.accounts ∨ obShape x := by
  intro x hx
  unfold ensureOpeningBalanceAccount at hx
  split at hx
  · exact Or.inl hx
  · dsimp only at hx
    split at hx
    · exact Or.inl hx
    · split at hx
      · exact Or.inl hx
      · dsimp only at hx
        rcases List.mem_append.mp hx with h | h
        · exact Or.inl h
        · rw [List.mem_singleton] at h
          subst h
          exact Or.inr ⟨rfl, rfl, rfl, rfl, rfl⟩

theorem obLoop_accounts (u : UUID) (l : List Account) :
    ∀ (s : Store) (seen : List String),
      ∀ x ∈ (obLoop u s seen l).1.accounts, x ∈ s.accounts ∨ obShape x := by
  induction l with
  | nil =>
    intro s seen x hx
    exact Or.inl hx
  | cons a rest ih =>
    intro s seen x hx
    rw [obLoop] at hx
    by_cases hmem : a.currency ∈ seen
    · rw [if_pos hmem] at hx
      exact ih s seen x hx
    · rw [if_neg hmem] at hx
      cases heo : ensureOpeningBalanceAccount s u a.currency with
      | mk s1 res =>
        rw [heo] at hx
        cases res with
        | ok acc =>
          dsimp only at hx
          rcases ih s1 (a.currency :: seen) x hx with h | h
          · exact ensureOB_accounts s u a.currency x (by rw [heo]; exact h)
          · exact Or.inr h
        | error e =>
          dsimp only at hx
          exact ensureOB_accounts s u a.currency x (by rw [heo]; exact hx)

theorem buildAccounts_length (k : Nat) (l : List Account) :
    (buildAccounts k l).length = l.length := by
  induction l generalizing k with
  | nil => rfl
  | cons a rest ih => simp [buildAccounts, ih]

theorem eab_val (s : Store) (userID : UUID) (specs : List Account) (hu : userID ≠ uuidNil)
    (hV : (specs.map (normalizeSpec userID)).enum.filterMap (fun p =>
        match validateCreate p.2 with
        | .error e => some (⟨p.1, "validation_error", e⟩ : ItemError)
        | .ok () => none) ≠ []) :
    ensureAccountsBatch s userID specs =
      ⟨s, [], (specs.map (normalizeSpec userID)).enum.filterMap (fun p =>
        match validateCreate p.2 with
        | .error e => some (⟨p.1, "validation_error", e⟩ : ItemError)
        | .ok () => none), none⟩ := by
  unfold ensureAccountsBatch
  rw [if_neg hu]
  dsimp only
  rw [if_pos hV]

theorem eab_ob_err (s : Store) (userID : UUID) (specs : List Account) (s1 : Store)
    (e : String) (hu : userID ≠ uuidNil)
    (hV : (specs.map (normalizeSpec userID)).enum.filterMap (fun p =>
        match validateCreate p.2 with
        | .error e => some (⟨p.1, "validation_error", e⟩ : ItemError)
        | .ok () => none) = [])
    (hob : obLoop userID s [] (specs.map (normalizeSpec userID)) = (s1, some e)) :
    ensureAccountsBatch s userID specs = ⟨s1, [], [], some e⟩ := by
  unfold ensureAccountsBatch
  rw [if_neg hu]
  dsimp only
  rw [if_neg (by simp [hV]), hob]

theorem eab_conf (s : Store) (userID : UUID) (specs : List Account) (s1 : Store)
    (hu : userID ≠ uuidNil)
    (hV : (specs.map (normalizeSpec userID)).enum.filterMap (fun p =>
        match validateCreate p.2 with
        | .error e => some (⟨p.1, "validation_error", e⟩ : ItemError)
        | .ok () => none) = [])
    (hob : obLoop userID s [] (specs.map (normalizeSpec userID)) = (s1, none))
    (hC : conflictLoop (s1.accounts.filter (fun a => a.userID == userID)) userID [] 0 []
        (specs.map (normalizeSpec userID)) ≠ []) :
    ensureAccountsBatch s userID specs =
      ⟨s1, [], conflictLoop (s1.accounts.filter (fun a => a.userID == userID)) userID [] 0 []
        (specs.map (normalizeSpec userID)), none⟩ := by
  unfold ensureAccountsBatch
  rw [if_neg hu]
  dsimp only
  rw [if_neg (by simp [hV]), hob]
  dsimp only
  rw [if_pos hC]

theorem eab_commit_conf (s : Store) (userID : UUID) (specs : List Account) (s1 : Store)
    (hu : userID ≠ uuidNil)
    (hV : (specs.map (normalizeSpec userID)).enum.filterMap (fun p =>
        match validateCreate p.2 with
        | .error e => some (⟨p.1, "validation_error", e⟩ : ItemError)
        | .ok () => none) = [])
    (hob : obLoop userID s [] (specs.map (normalizeSpec userID)) = (s1, none))
    (hC : conflictLoop (s1.accounts.filter (fun a => a.userID == userID)) userID [] 0 []
        (specs.map (normalizeSpec userID)) = [])
    (hcc : commitConflictB s1.accounts
        (buildAccounts s1.nextID (specs.map (normalizeSpec userID))) = true) :
    ensureAccountsBatch s userID specs =
      ⟨⟨s1.nextID + (specs.map (normalizeSpec userID)).length, s1.accounts, s1.entries⟩,
        [], [], some "conflict"⟩ := by
  unfold ensureAccountsBatch
  rw [if_neg hu]
  dsimp only
  rw [if_neg (by simp [hV]), hob]
  dsimp only
  rw [if_neg (by simp [hC]), if_pos hcc]

theorem eab_success (s : Store) (userID : UUID) (specs : List Account) (s1 : Store)
    (hu : userID ≠ uuidNil)
    (hV : (specs.map (normalizeSpec userID)).enum.filterMap (fun p =>
        match validateCreate p.2 with
        | .error e => some (⟨p.1, "validation_error", e⟩ : ItemError)
        | .ok () => none) = [])
    (hob : obLoop userID s [] (specs.map (normalizeSpec userID)) = (s1, none))
    (hC : conflictLoop (s1.accounts.filter (fun a => a.userID == userID)) userID [] 0 []
        (specs.map (normalizeSpec userID)) = [])
    (hcc : commitConflictB s1.accounts
        (buildAccounts s1.nextID (specs.map (normalizeSpec userID))) = false) :
    ensureAccountsBatch s userID specs =
      ⟨⟨s1.nextID + (specs.map (normalizeSpec userID)).length,
          s1.accounts ++ buildAccounts s1.nextID (specs.map (normalizeSpec userID)),
          s1.entries⟩,
        buildAccounts s1.nextID (specs.map (normalizeSpec userID)), [], none⟩ := by
  unfold ensureAccountsBatch
  rw [if_neg hu]
  dsimp only
  rw [if_neg (by simp [hV]), hob]
  dsimp only
  rw [if_neg (by simp [hC]), hcc]
  rfl

/-- C2: batch atomicity for `EnsureAccountsBatch`.  (1) Whenever the
call reports item errors it creates nothing, reports no fatal error and
persists none of the submitted items — every account in the resulting
store was already there or is a provisioned opening-balances system
account.  (2) When any item fails validation the store is returned
exactly as it was, with one `validation_error` record per failing index
and nothing created.  (3) A clean call (no item errors, no fatal error)
commits all N items as one unit: `created` has one account per spec and
the store's accounts are exactly a batch-independent prefix followed by
`created`. -/
theorem ensureAccountsBatch_atomicity (s : Store) (userID : UUID) (specs : List Account)
    (hu : userID ≠ uuidNil) :
    ((ensureAccountsBatch s userID specs).itemErrors ≠ [] →
      (ensureAccountsBatch s userID specs).created = [] ∧
      (ensureAccountsBatch s userID specs).fatal = none ∧
      ∀ x ∈ (ensureAccountsBatch s userID specs).store.accounts,
        x ∈ s.accounts ∨ obShape x) ∧
    ((specs.map (normalizeSpec userID)).enum.filterMap (fun p =>
        match validateCreate p.2 with
        | .error e => some (⟨p.1, "validation_error", e⟩ : ItemError)
        | .ok () => none) ≠ [] →
      ensureAccountsBatch s userID specs =
        ⟨s, [], (specs.map (normalizeSpec userID)).enum.filterMap (fun p =>
          match validateCreate p.2 with
          | .error e => some (⟨p.1, "validation_error", e⟩ : ItemError)
          | .ok () => none), none⟩) ∧
    ((ensureAccountsBatch s userID specs).itemErrors = [] →
      (ensureAccountsBatch s userID specs).fatal = none →
      (ensureAccountsBatch s userID specs).created.length = specs.length ∧
      ∃ pre, (ensureAccountsBatch s userID specs).store.accounts =
          pre ++ (ensureAccountsBatch s userID specs).created ∧
        ∀ x ∈ pre, x ∈ s.accounts ∨ obShape x) := by
  by_cases hV : (specs.map (normalizeSpec userID)).enum.filterMap (fun p =>
      match validateCreate p.2 with
      | .error e => some (⟨p.1, "validation_error", e⟩ : ItemError)
      | .ok () => none) = []
  · cases hob : obLoop userID s [] (specs.map (normalizeSpec userID)) with
    | mk s1 ores =>
      have hs1 : ∀ x ∈ s1.accounts, x ∈ s.accounts ∨ obShape x := by
        intro x hx
        exact obLoop_accounts userID (specs.map (normalizeSpec userID)) s [] x
          (by rw [hob]; exact hx)
      cases ores with
      | some e =>
        have hr := eab_ob_err s userID specs s1 e hu hV hob
        rw [hr]
        refine ⟨fun h => absurd rfl h, fun h => absurd hV h, fun _ hf => ?_⟩
        exact absurd hf (by simp)
      | none =>
        by_cases hC : conflictLoop (s1.accounts.filter (fun a => a.userID == userID))
            userID [] 0 [] (specs.map (normalizeSpec userID)) = []
        · cases hcc : commitConflictB s1.accounts
              (buildAccounts s1.nextID (specs.map (normalizeSpec userID))) with
          | true =>
            have hr := eab_commit_conf s userID specs s1 hu hV hob hC hcc
            rw [hr]
            refine ⟨fun h => absurd rfl h, fun h => absurd hV h, fun _ hf => ?_⟩
            exact absurd hf (by simp)
          | false =>
            have hr := eab_success s userID specs s1 hu hV hob hC hcc
            rw [hr]
            refine ⟨fun h => absurd rfl h, fun h => absurd hV h, fun _ _ => ?_⟩
            refine ⟨?_, s1.accounts, rfl, hs1⟩
            rw [buildAccounts_length, List.length_map]
        · have hr := eab_conf s userID specs s1 hu hV hob
            (fun h => hC h)
          rw [hr]
          refine ⟨fun _ => ⟨rfl, rfl, hs1⟩, fun h => absurd hV h, fun h => absurd h hC⟩
  · have hr := eab_val s userID specs hu hV
    rw [hr]
    refine ⟨fun _ => ⟨rfl, rfl, fun x hx => Or.inl hx⟩, fun _ => rfl, fun h _ => absurd h hV⟩

/-- The account draft used to exercise the batch coordinator. -/
def c2Spec : Account := ⟨0, 0, "Spending", "USD", "asset", "bank", "monzo", false, false⟩

/-- C2 counterexample: a batch of three items all claiming the same
path+currency produces FOUR conflict records over three failing items —
index 0 is recorded twice (once per later duplicate) — refuting "one
error record (index, code, message) per failing item". -/
theorem ensureAccountsBatch_dup_records_refutes :
    (ensureAccountsBatch ⟨100, [], []⟩ 1 [c2Spec, c2Spec, c2Spec]).itemErrors.countP
        (fun e => e.index == 0) = 2 ∧
    (ensureAccountsBatch ⟨100, [], []⟩ 1 [c2Spec, c2Spec, c2Spec]).itemErrors.length = 4 ∧
    (ensureAccountsBatch ⟨100, [], []⟩ 1 [c2Spec, c2Spec, c2Spec]).created = [] := by
  refine ⟨by rfl, by rfl, by rfl⟩

theorem ensureAccountsBatch_atomicity_witness :
    ((1 : UUID) ≠ uuidNil) ∧
    ((ensureAccountsBatch ⟨100, [], []⟩ 1 [c2Spec]).itemErrors = [] →
      (ensureAccountsBatch ⟨100, [], []⟩ 1 [c2Spec]).fatal = none →
      (ensureAccountsBatch ⟨100, [], []⟩ 1 [c2Spec]).created.length = [c2Spec].length ∧
      ∃ pre, (ensureAccountsBatch ⟨100, [], []⟩ 1 [c2Spec]).store.accounts =
          pre ++ (ensureAccountsBatch ⟨100, [], []⟩ 1 [c2Spec]).created ∧
        ∀ x ∈ pre, x ∈ (⟨100, [], []⟩ : Store).accounts ∨ obShape x) :=
  ⟨by decide, (ensureAccountsBatch_atomicity ⟨100, [], []⟩ 1 [c2Spec] (by decide)).2.2⟩

/-! ## Claim C8: batch idempotency (`accounts_batch.go` / `idempotency.go`) -/

/-- The sha256 of the canonically-marshalled normalized request body,
modelled as the normalized value itself (deterministic serialization of
a normalized body is injective, and sha256 is collision-free for the
purposes of the handler). -/
abbrev BodyHash := UUID × List Account

def hashAccountsReq (userID : UUID) (accounts : List Account) : BodyHash :=
  (userID, accounts)

/-- The body bytes written by one handler run: exactly one of the three
response shapes the handler serialises. -/
inductive BatchPayload
  | fatalOut (msg : String)
  | errorsOut (errs : List ItemError)
  | accountsOut (accs : List Account)
deriving DecidableEq, Repr

/-- A `storedBatch` cache record: body hash, status code and payload. -/
structure StoredBatchA where
  hash : BodyHash
  status : Nat
  payload : BatchPayload
deriving DecidableEq, Repr

/-- The server's mutable state: the `batchIdem` cache and the store
behind the account service.  (The Go cache is a map; the handler never
stores under an existing key, so an append-only association list with
first-match lookup is equivalent.) -/
structure ServerState where
  idem : List (String × StoredBatchA)
  store : Store
deriving DecidableEq, Repr

/-- `postAccountsBatch` (`internal/httpapi/v1/accounts_batch.go`):
require an idempotency key and a well-formed body; replay a stored
response verbatim when the key was seen with the same body hash; answer
`409 idempotency_mismatch` without touching anything when the hash
differs; otherwise run `EnsureAccountsBatch`, respond, and cache the
response under the key. -/
def postAccountsBatch (st : ServerState) (key : String) (userID : UUID)
    (accounts : List Account) : ServerState × Nat × BatchPayload :=
  if key = "" then (st, 400, .fatalOut "idempotency_required")
  else if userID = uuidNil then (st, 400, .fatalOut "user_id is required")
  else if accounts = [] then (st, 400, .fatalOut "accounts is required")
  else if 100 < accounts.length then (st, 422, .fatalOut "too_many_items")
  else
    let h := hashAccountsReq userID accounts
    match st.idem.find? (fun p => p.1 == key) with
    | some prev =>
      if prev.2.hash = h then (st, prev.2.status, prev.2.payload)
      else (st, 409, .fatalOut "idempotency_mismatch")
    | none =>
      let r := ensureAccountsBatch st.store userID accounts
      let resp : Nat × BatchPayload :=
        match r.fatal with
        | some e => (400, .fatalOut e)
        | none =>
          if r.itemErrors ≠ [] then (422, .errorsOut r.itemErrors)
          else (201, .accountsOut r.created)
      ({ idem := st.idem ++ [(key, ⟨h, resp.1, resp.2⟩)], store := r.store },
        resp.1, resp.2)

/-- C8: once a batch request has executed under an idempotency key, a
second request with the same key and identical normalized body hash is
answered by replaying the stored response verbatim — same status code,
byte-identical body — with the whole server state (idempotency cache
and business store) untouched; and a request with the same key but a
different body hash fails `409 idempotency_mismatch`, also touching
nothing and executing no item. -/
theorem postAccountsBatch_idempotent (st : ServerState) (key : String) (userID : UUID)
    (accounts : List Account)
    (hkey : key ≠ "") (hu : userID ≠ uuidNil) (hne : accounts ≠ [])
    (hlen : accounts.length ≤ 100)
    (hfresh : st.idem.find? (fun p => p.1 == key) = none) :
    (postAccountsBatch (postAccountsBatch st key userID accounts).1 key userID accounts =
      postAccountsBatch st key userID accounts) ∧
    (∀ (userID' : UUID) (accounts' : List Account),
      hashAccountsReq userID' accounts' ≠ hashAccountsReq userID accounts →
      userID' ≠ uuidNil → accounts' ≠ [] → accounts'.length ≤ 100 →
      postAccountsBatch (postAccountsBatch st key userID accounts).1 key userID' accounts' =
        ((postAccountsBatch st key userID accounts).1, 409,
          .fatalOut "idempotency_mismatch")) := by
  have hlen' : ¬(100 < accounts.length) := by omega
  have hfirst : postAccountsBatch st key userID accounts =
      (let r := ensureAccountsBatch st.store userID accounts
       let resp : Nat × BatchPayload :=
         match r.fatal with
         | some e => (400, .fatalOut e)
         | none =>
           if r.itemErrors ≠ [] then (422, .errorsOut r.itemErrors)
           else (201, .accountsOut r.created)
       ({ idem := st.idem ++ [(key, ⟨hashAccountsReq userID accounts, resp.1, resp.2⟩)],
          store := r.store }, resp.1, resp.2)) := by
    unfold postAccountsBatch
    rw [if_neg hkey, if_neg hu, if_neg hne, if_neg hlen', hfresh]
  have hfind1 : ((postAccountsBatch st key userID accounts).1).idem.find?
      (fun p => p.1 == key) =
      some (key, ⟨hashAccountsReq userID accounts,
        (postAccountsBatch st key userID accounts).2.1,
        (postAccountsBatch st key userID accounts).2.2⟩) := by
    rw [hfirst]
    dsimp only
    rw [find?_append_none _ hfresh]
    simp [List.find?]
  constructor
  · conv_lhs => rw [postAccountsBatch]
    rw [if_neg hkey, if_neg hu, if_neg hne, if_neg hlen', hfind1]
    dsimp only
    rw [if_pos rfl]
  · intro userID' accounts' hdiff hu' hne' hlen2
    have hlen2' : ¬(100 < accounts'.length) := by omega
    conv_lhs => rw [postAccountsBatch]
    rw [if_neg hkey, if_neg hu', if_neg hne', if_neg hlen2', hfind1]
    dsimp only
    rw [if_neg (by
      intro h
      exact hdiff (by simpa using h.symm))]

def c8St : ServerState := ⟨[], ⟨100, [], []⟩⟩

def c8Acc : Account := ⟨0, 0, "Main", "USD", "asset", "bank", "monzo", false, true⟩

theorem postAccountsBatch_idempotent_witness :
    ("k" : String) ≠ "" ∧ (1 : UUID) ≠ uuidNil ∧ ([c8Acc] : List Account) ≠ [] ∧
    ([c8Acc] : List Account).length ≤ 100 ∧
    c8St.idem.find? (fun p => p.1 == "k") = none ∧
    (postAccountsBatch (postAccountsBatch c8St "k" 1 [c8Acc]).1 "k" 1 [c8Acc] =
      postAccountsBatch c8St "k" 1 [c8Acc]) ∧
    (postAccountsBatch (postAccountsBatch c8St "k" 1 [c8Acc]).1 "k" 2 [c8Acc] =
      ((postAccountsBatch c8St "k" 1 [c8Acc]).1, 409,
        .fatalOut "idempotency_mismatch")) := by
  refine ⟨by decide, by decide, by decide, by decide, by rfl, ?_, ?_⟩
  · exact (postAccountsBatch_idempotent c8St "k" 1 [c8Acc]
      (by decide) (by decide) (by decide) (by decide) (by rfl)).1
  · exact (postAccountsBatch_idempotent c8St "k" 1 [c8Acc]
      (by decide) (by decide) (by decide) (by decide) (by rfl)).2 2 [c8Acc]
      (by decide) (by decide) (by decide) (by decide)

/-! ## Claim C9: entry listing pagination (`internal/httpapi/entries.go`) -/

/-- The `from`/`to` window test of `listEntries`: an entry is kept
unless it is dated before `from` or after `to`. -/
def inWindow (fromT toT : Option Time) (e : JournalEntry) : Bool :=
  !(match fromT with | some t => decide (e.date < t) | none => false) &&
  !(match toT with | some t => decide (t < e.date) | none => false)

/-- The window `listEntries` paginates: the user's entries sorted by
`(date, id)` ascending (the handler's `sort.Slice`), then filtered by
the optional `from`/`to` bounds.  `entriesByUser` is exactly that sort
of the user's entries. -/
def windowOf (s : Store) (u : UUID) (fromT toT : Option Time) : List JournalEntry :=
  (entriesByUser s u).filter (inWindow fromT toT)

/-- The cursor scan of `listEntries`: walk the window in order,
breaking (resume from the top) at the first entry dated after the
cursor timestamp; when an entry with the cursor's exact `(date, id)`
is met first, resume just after it. -/
def cursorStart (ts : Time) (cid : UUID) : List JournalEntry → Nat
  | [] => 0
  | e :: rest =>
    if ts < e.date then 0
    else if e.date = ts ∧ e.id = cid then 1
    else
      match cursorStart ts cid rest with
      | 0 => 0
      | n + 1 => n + 2

/-- The page's start index: 0 without a cursor, else the cursor scan.
(The cursor token is base64 of `RFC3339Nano date | uuid`; both halves
round-trip, so a token is modelled as the `(date, id)` pair itself.) -/
def startIndex (w : List JournalEntry) : Option (Time × UUID) → Nat
  | none => 0
  | some (ts, cid) => cursorStart ts cid w

structure EntriesPage where
  items : List JournalEntry
  next : Option (Time × UUID)
deriving DecidableEq, Repr

/-- `listEntries` (`entries.go`): fetch the user's entries, sort by
`(date, id)` ascending, apply the `from`/`to` window, resume at the
cursor, return at most `limit` items, and hand out a next cursor —
the last returned entry's `(date, id)` — iff `end < len(window)`. -/
def listEntries (s : Store) (u : UUID) (fromT toT : Option Time) (lim : Nat)
    (cursor : Option (Time × UUID)) : EntriesPage :=
  let window := windowOf s u fromT toT
  let start := startIndex window cursor
  let page := (window.drop start).take lim
  { items := page
    next :=
      if start + lim < window.length then
        page.getLast?.map (fun e => (e.date, e.id))
      else none }

/-- Driving the endpoint to exhaustion: call `listEntries`, follow the
returned cursor while one is produced, concatenating the pages.  `fuel`
bounds the number of calls. -/
def collectPages (s : Store) (u : UUID) (fromT toT : Option Time) (lim : Nat) :
    Nat → Option (Time × UUID) → List JournalEntry
  | 0, _ => []
  | fuel + 1, cur =>
    let p := listEntries s u fromT toT lim cur
    match p.next with
    | none => p.items
    | some c => p.items ++ collectPages s u fromT toT lim fuel (some c)

instance : IsTotal JournalEntry entryLE :=
  ⟨fun a b => by
    unfold entryLE
    rcases lt_trichotomy a.date b.date with h | h | h
    · exact Or.inl (Or.inl h)
    · rcases Nat.le_total a.id b.id with h2 | h2
      · exact Or.inl (Or.inr ⟨h, h2⟩)
      · exact Or.inr (Or.inr ⟨h.symm, h2⟩)
    · exact Or.inr (Or.inl h)⟩

instance : IsTrans JournalEntry entryLE :=
  ⟨fun a b c hab hbc => by
    unfold entryLE at hab hbc ⊢
    rcases hab with h1 | ⟨h1, h1'⟩ <;> rcases hbc with h2 | ⟨h2, h2'⟩
    · exact Or.inl (h1.trans h2)
    · exact Or.inl (h2 ▸ h1)
    · exact Or.inl (h1 ▸ h2)
    · exact Or.inr ⟨h1.trans h2, h1'.trans h2'⟩⟩

theorem entryLE_date {a b : JournalEntry} (h : entryLE a b) : a.date ≤ b.date := by
  rcases h with h | ⟨h, _⟩
  · exact le_of_lt h
  · exact le_of_eq h

theorem windowOf_none (s : Store) (u : UUID) :
    windowOf s u none none = entriesByUser s u := by
  simp [windowOf, inWindow]

theorem windowOf_sorted (s : Store) (u : UUID) (fromT toT : Option Time) :
    List.Sorted entryLE (windowOf s u fromT toT) :=
  List.Pairwise.filter _ (List.sorted_insertionSort entryLE _)

theorem take_get_cons_drop (l : List JournalEntry) (n : Nat) (h : n < l.length) :
    l = l.take n ++ l.get ⟨n, h⟩ :: l.drop (n + 1) := by
  conv_lhs => rw [← List.take_append_drop n l]
  rw [List.drop_eq_getElem_cons h]
  rfl

/-- Resuming from the `(date, id)` of the element at index `n` of the
window lands exactly at index `n + 1`: the Go scan walks the window and
breaks with `start = i + 1` at that element, never breaking earlier
because all preceding elements are dated no later and carry other ids. -/
theorem cursorStart_spec (l₁ l₂ : List JournalEntry) (e0 : JournalEntry)
    (hdates : ∀ a ∈ l₁, a.date ≤ e0.date)
    (hids : ∀ a ∈ l₁, a.id ≠ e0.id) :
    cursorStart e0.date e0.id (l₁ ++ e0 :: l₂) = l₁.length + 1 := by
  induction l₁ with
  | nil => simp [cursorStart]
  | cons a l₁ ih =>
    have h1 : ¬(e0.date < a.date) := not_lt.mpr (hdates a (List.mem_cons_self a l₁))
    have h2 : ¬(a.date = e0.date ∧ a.id = e0.id) := fun hh =>
      hids a (List.mem_cons_self a l₁) hh.2
    have h3 := ih (fun x hx => hdates x (List.mem_cons_of_mem a hx))
      (fun x hx => hids x (List.mem_cons_of_mem a hx))
    rw [List.cons_append]
    simp only [cursorStart]
    rw [if_neg h1]
    rw [if_neg h2]
    rw [h3]
    show l₁.length + 2 = (a :: l₁).length + 1
    simp [List.length_cons]

theorem window_split (W : List JournalEntry) (n : Nat) (hn : n < W.length)
    (hsort : List.Sorted entryLE W) (hnodup : (W.map (fun e => e.id)).Nodup) :
    (∀ a ∈ W.take n, a.date ≤ (W.get ⟨n, hn⟩).date) ∧
    (∀ a ∈ W.take n, a.id ≠ (W.get ⟨n, hn⟩).id) := by
  have hdec := take_get_cons_drop W n hn
  constructor
  · intro a ha
    have hp : List.Pairwise entryLE (W.take n ++ W.get ⟨n, hn⟩ :: W.drop (n + 1)) :=
      hdec ▸ hsort
    exact entryLE_date ((List.pairwise_append.mp hp).2.2 a ha _ (List.mem_cons_self _ _))
  · intro a ha hid
    have h2 : (((W.take n).map (fun e => e.id)) ++
        ((W.get ⟨n, hn⟩ :: W.drop (n + 1)).map (fun e => e.id))).Nodup := by
      rw [← List.map_append, ← hdec]
      exact hnodup
    exact (List.nodup_append.mp h2).2.2 (List.mem_map_of_mem _ ha)
      (by rw [List.map_cons, hid]; exact List.mem_cons_self _ _)

theorem page_getLast (W : List JournalEntry) (k lim : Nat) (hlim : 1 ≤ lim)
    (hbound : k + lim - 1 < W.length) (h : k + lim ≤ W.length) :
    ((W.drop k).take lim).getLast? = some (W.get ⟨k + lim - 1, hbound⟩) := by
  have hlp : ((W.drop k).take lim).length = lim := by
    rw [List.length_take, List.length_drop]
    omega
  rw [List.getLast?_eq_getElem?, hlp]
  rw [List.getElem?_take_of_lt (by omega : lim - 1 < lim)]
  rw [List.getElem?_drop]
  have hidx : k + (lim - 1) = k + lim - 1 := by omega
  rw [hidx, List.getElem?_eq_getElem hbound]
  rfl

theorem listEntries_eq (s : Store) (u : UUID) (fromT toT : Option Time) (lim : Nat)
    (cursor : Option (Time × UUID)) :
    listEntries s u fromT toT lim cursor =
      { items := ((windowOf s u fromT toT).drop
            (startIndex (windowOf s u fromT toT) cursor)).take lim
        next :=
          if startIndex (windowOf s u fromT toT) cursor + lim <
              (windowOf s u fromT toT).length then
            (((windowOf s u fromT toT).drop
                (startIndex (windowOf s u fromT toT) cursor)).take lim).getLast?.map
              (fun e => (e.date, e.id))
          else none } := rfl

/-- Driving `listEntries` with enough fuel from any reachable start
position returns exactly the remaining suffix of the window. -/
theorem collect_drop (s : Store) (u : UUID) (lim : Nat) (hlim : 1 ≤ lim)
    (hnodup : ((windowOf s u none none).map (fun e => e.id)).Nodup) :
    ∀ (fuel k : Nat) (cur : Option (Time × UUID)),
      startIndex (windowOf s u none none) cur = k →
      (windowOf s u none none).length ≤ k + fuel * lim →
      collectPages s u none none lim fuel cur = (windowOf s u none none).drop k := by
  have hsort := windowOf_sorted s u none none
  intro fuel
  induction fuel with
  | zero =>
    intro k cur hstart hlen
    simp only [Nat.zero_mul, Nat.add_zero] at hlen
    simp only [collectPages]
    exact (List.drop_eq_nil_of_le hlen).symm
  | succ fuel ih =>
    intro k cur hstart hlen
    simp only [collectPages, listEntries_eq, hstart]
    by_cases htrunc : k + lim < (windowOf s u none none).length
    · have hbound : k + lim - 1 < (windowOf s u none none).length := by omega
      have hlast := page_getLast (windowOf s u none none) k lim hlim hbound (by omega)
      rw [if_pos htrunc, hlast]
      dsimp only [Option.map]
      have hsplit := window_split (windowOf s u none none) (k + lim - 1) hbound hsort hnodup
      have htklen : ((windowOf s u none none).take (k + lim - 1)).length = k + lim - 1 := by
        rw [List.length_take]
        omega
      have hcs : startIndex (windowOf s u none none)
          (some (((windowOf s u none none).get ⟨k + lim - 1, hbound⟩).date,
            ((windowOf s u none none).get ⟨k + lim - 1, hbound⟩).id)) = k + lim := by
        show cursorStart _ _ (windowOf s u none none) = k + lim
        have hW := take_get_cons_drop (windowOf s u none none) (k + lim - 1) hbound
        have hspec := cursorStart_spec ((windowOf s u none none).take (k + lim - 1))
          ((windowOf s u none none).drop (k + lim - 1 + 1))
          ((windowOf s u none none).get ⟨k + lim - 1, hbound⟩) hsplit.1 hsplit.2
        rw [← hW] at hspec
        rw [hspec, htklen]
        omega
      rw [ih (k + lim) _ hcs (by
        have := hlen
        rw [Nat.succ_mul] at this
        omega)]
      rw [← List.drop_drop, List.take_append_drop]
    · rw [if_neg htrunc]
      have hle : ((windowOf s u none none).drop k).length ≤ lim := by
        rw [List.length_drop]
        omega
      exact List.take_of_length_le hle

/-- C9: driving the entry listing to exhaustion by following each
returned cursor yields exactly the entries that exist for the user —
each exactly once (a permutation of the user's entry set), in ascending
`(date, id)` order — and any single call produces a `next_cursor` iff
the page it returned was truncated: the page is a proper prefix of what
remains of the window past the resume point (so no next page implies no
cursor). -/
theorem listEntries_pagination (s : Store) (u : UUID) (lim : Nat)
    (hlim : 1 ≤ lim)
    (hnodup : ((s.entries.filter (fun e => e.userID == u)).map (fun e => e.id)).Nodup) :
    (collectPages s u none none lim ((entriesByUser s u).length + 1) none =
        entriesByUser s u) ∧
    (entriesByUser s u).Perm (s.entries.filter (fun e => e.userID == u)) ∧
    List.Sorted entryLE (entriesByUser s u) ∧
    ∀ cursor, ((listEntries s u none none lim cursor).next.isSome ↔
      (listEntries s u none none lim cursor).items ≠
        (entriesByUser s u).drop (startIndex (entriesByUser s u) cursor)) := by
  have hperm : (entriesByUser s u).Perm (s.entries.filter (fun e => e.userID == u)) :=
    List.perm_insertionSort entryLE _
  have hnodup' : ((windowOf s u none none).map (fun e => e.id)).Nodup := by
    rw [windowOf_none]
    exact ((hperm.map (fun e => e.id)).nodup_iff).mpr hnodup
  refine ⟨?_, hperm, List.sorted_insertionSort entryLE _, ?_⟩
  · have hfuel : (windowOf s u none none).length ≤
        0 + ((entriesByUser s u).length + 1) * lim := by
      rw [windowOf_none]
      have h2 : ((entriesByUser s u).length + 1) * 1 ≤
          ((entriesByUser s u).length + 1) * lim := Nat.mul_le_mul_left _ hlim
      omega
    have hc := collect_drop s u lim hlim hnodup' ((entriesByUser s u).length + 1) 0 none
      rfl hfuel
    rw [hc, List.drop_zero, windowOf_none]
  · intro cursor
    rw [listEntries_eq]
    dsimp only
    rw [windowOf_none]
    by_cases htrunc : startIndex (entriesByUser s u) cursor + lim <
        (entriesByUser s u).length
    · rw [if_pos htrunc]
      constructor
      · intro _ heq
        have h1 : (((entriesByUser s u).drop
            (startIndex (entriesByUser s u) cursor)).take lim).length = lim := by
          rw [List.length_take, List.length_drop]
          omega
        rw [heq, List.length_drop] at h1
        omega
      · intro _
        have hne : ((entriesByUser s u).drop
            (startIndex (entriesByUser s u) cursor)).take lim ≠ [] := by
          apply List.ne_nil_of_length_pos
          rw [List.length_take, List.length_drop]
          omega
        obtain ⟨x, hx⟩ := Option.isSome_iff_exists.mp (List.getLast?_isSome.mpr hne)
        rw [hx]
        rfl
    · rw [if_neg htrunc]
      have heq : ((entriesByUser s u).drop
          (startIndex (entriesByUser s u) cursor)).take lim =
          (entriesByUser s u).drop (startIndex (entriesByUser s u) cursor) :=
        List.take_of_length_le (by rw [List.length_drop]; omega)
      simp [heq]

def c9Store : Store :=
  ⟨100, [],
   [⟨2, 1, 200, "USD", "second", "general", false, []⟩,
    ⟨3, 1, 100, "USD", "first", "general", false, []⟩]⟩

theorem listEntries_pagination_witness :
    ((1 : Nat) ≤ 1) ∧
    ((c9Store.entries.filter (fun e => e.userID == 1)).map (fun e => e.id)).Nodup ∧
    (collectPages c9Store 1 none none 1 ((entriesByUser c9Store 1).length + 1) none =
        entriesByUser c9Store 1) ∧
    ((listEntries c9Store 1 none none 1 none).next.isSome ↔
      (listEntries c9Store 1 none none 1 none).items ≠
        (entriesByUser c9Store 1).drop (startIndex (entriesByUser c9Store 1) none)) := by
  refine ⟨by decide, by decide, ?_, ?_⟩
  · exact (listEntries_pagination c9Store 1 1 (by decide) (by decide)).1
  · exact (listEntries_pagination c9Store 1 1 (by decide) (by decide)).2.2.2 none

end Ledger
